import Mathlib

set_option linter.dupNamespace false

/-!
Integer division lowering and SSA flattening of the JIT compiler

A shallow embedding of `ir/expr/div.go` (the `IR_Div` node: `ReturnType`,
`Encode`, `String`, `SSA_Transform`) and of the instruction constructors of
`asm/assembler.go`, followed by theorems about them.

Packages `encoding`, `opcodes`, `lib` and `shared` are used by these two files
but their declarations are elsewhere; the few types and helpers needed from
them are modelled below and marked as such.  Go pointers to registers are
compared structurally (every register is a package-level singleton), a Go map
is an association list with distinct keys, and the two ways `ctxCopy` can
relate to `ctx` (the same object, or a snapshot made by `Copy`) are kept apart
explicitly.
-/

namespace JIT

/-! ## Operands (package `encoding`) -/

/-- Modelled from the spec: the operand widths BYTE (8), WORD (16), DOUBLE (32)
and QUAD (64) of package lib, whose declaration is missing. -/
inductive Size where
  | BYTE
  | WORD
  | DOUBLE
  | QUADWORD
  deriving DecidableEq, Repr

/-- Modelled from the spec: the class of a register, general purpose or float. -/
inductive RegClass where
  | GPR
  | XMM
  deriving DecidableEq, Repr

/-- Modelled from the spec: the type encoding.Register, missing from the
sources, "identified by (class, index, width)".  The field `Register` is the
hardware index that div.go reads as `r.Register`. -/
structure Register where
  Class : RegClass
  Register : Nat
  Size : JIT.Size
  deriving DecidableEq, Repr

/-- Modelled from the spec: the operand sum type of package encoding, missing
from the sources: register, immediates of 8, 16, 32 and 64 bits, memory
reference (base, displacement, width) and RIP-relative displacement.  `Nil` is
the nil interface value, which a Go map lookup of an absent key yields. -/
inductive Operand where
  | Register (r : JIT.Register)
  | Uint8 (v : Nat)
  | Uint16 (v : Nat)
  | Uint32 (v : Nat)
  | Uint64 (v : Nat)
  | Memory (base : JIT.Register) (displacement : Int) (width : JIT.Size)
  | RIPRelative (displacement : Int)
  | Nil
  deriving DecidableEq, Repr

/-- The method Width of a register. -/
def Register.Width (r : JIT.Register) : JIT.Size := r.Size

/-- Modelled from the spec: ForOperandWidth projects a register to another width,
"a distinct operand but the same underlying machine register". -/
def Register.ForOperandWidth (r : JIT.Register) (w : JIT.Size) : JIT.Register :=
  { r with Size := w }

/-- The register constant encoding.Rax. -/
def Rax : Register := ⟨.GPR, 0, .QUADWORD⟩
/-- The register constant encoding.Rdx. -/
def Rdx : Register := ⟨.GPR, 2, .QUADWORD⟩
/-- The register constant encoding.Edx. -/
def Edx : Register := ⟨.GPR, 2, .DOUBLE⟩
/-- The register constant encoding.Dx. -/
def Dx : Register := ⟨.GPR, 2, .WORD⟩
/-- The register constant encoding.Ah; the hardware number of AH is 4. -/
def Ah : Register := ⟨.GPR, 4, .BYTE⟩

/-- The conversion encoding.Uint8(v) of a uint64. -/
def Uint8 (v : Nat) : Operand := .Uint8 (v % 2 ^ 8)
/-- The conversion encoding.Uint16(v) of a uint64. -/
def Uint16 (v : Nat) : Operand := .Uint16 (v % 2 ^ 16)
/-- The conversion encoding.Uint32(v) of a uint64. -/
def Uint32 (v : Nat) : Operand := .Uint32 (v % 2 ^ 32)
/-- The conversion encoding.Uint64(v) of a uint64. -/
def Uint64 (v : Nat) : Operand := .Uint64 (v % 2 ^ 64)

/-! ## Instructions (package `asm`) -/

/-- The opcode tables of package opcodes that the modelled constructors name. -/
inductive OpcodeMap where
  | CMP
  | CBW
  | CWD
  | CDQ
  | CQO
  | DIV
  | IDIV1
  | IDIV2
  | MOV
  | XOR
  deriving DecidableEq, Repr

/-- An instruction as built by opcodes.OpcodesToInstruction(name, opcodes,
argCount, operands...), or a comment (encoding.Comment), which the sink also
accepts.  `Nil` is the nil interface value, the value of the variable declared
on line 118 of div.go before any branch assigns it. -/
inductive Instruction where
  | OpcodesToInstruction (name : String) (opcodes : OpcodeMap) (argCount : Nat)
      (operands : List Operand)
  | Comment (text : String)
  | Nil
  deriving DecidableEq, Repr

open Instruction (OpcodesToInstruction)

def CMP (src dest : Operand) : Instruction :=
  OpcodesToInstruction "cmp" .CMP 2 [dest, src]

def CMP_immediate (v : Nat) (dest : Operand) : Instruction :=
  match dest with
  | .Register reg =>
    if reg.Width = .BYTE then CMP (Uint8 v) dest
    else OpcodesToInstruction "cmp" .CMP 2 [dest, Uint32 v]
  | _ => OpcodesToInstruction "cmp" .CMP 2 [dest, Uint32 v]

def CBW : Instruction := OpcodesToInstruction "cbw" .CBW 0 []
def CWD : Instruction := OpcodesToInstruction "cwd" .CWD 0 []
def CDQ : Instruction := OpcodesToInstruction "cdq" .CDQ 0 []
def CQO : Instruction := OpcodesToInstruction "cqo" .CQO 0 []

def DIV (src : Operand) : Instruction :=
  OpcodesToInstruction "div" .DIV 1 [src]

def IDIV1 (dest : Operand) : Instruction :=
  OpcodesToInstruction "div" .IDIV1 1 [dest]

def IDIV2 (src dest : Operand) : Instruction :=
  OpcodesToInstruction "div" .IDIV2 2 [dest, src]

def MOV (src dest : Operand) : Instruction :=
  OpcodesToInstruction "mov" .MOV 2 [dest, src]

def MOV_immediate (v : Nat) (dest : Operand) : Instruction :=
  match dest with
  | .Register reg =>
    if reg.Width = .BYTE then MOV (Uint8 v) dest
    else if reg.Width = .WORD then MOV (Uint16 v) dest
    else if v < 2 ^ 32 then MOV (Uint32 v) dest
    else MOV (Uint64 v) dest
  | _ =>
    if v < 2 ^ 32 then MOV (Uint32 v) dest
    else MOV (Uint64 v) dest

def XOR (src dest : Operand) : Instruction :=
  OpcodesToInstruction "xor" .XOR 2 [dest, src]

/-! ## Types (package `shared`) -/

/-- Modelled from the spec: the IR types, "the integer widths (signed and
unsigned) and float64"; `TOther` stands for any further type, for which
line 164 of div.go exists. -/
inductive IRType where
  | TUint8
  | TUint16
  | TUint32
  | TUint64
  | TInt8
  | TInt16
  | TInt32
  | TInt64
  | TFloat64
  | TOther (tag : Nat)
  deriving DecidableEq, Repr

open IRType

/-- Modelled from the spec: shared.IsFloat. -/
def IsFloat : IRType → Bool
  | TFloat64 => true
  | _ => false

/-- Modelled from the spec: shared.IsSignedInteger. -/
def IsSignedInteger : IRType → Bool
  | TInt8 | TInt16 | TInt32 | TInt64 => true
  | _ => false

/-- Modelled from the spec: shared.IsInteger, signed or unsigned. -/
def IsInteger : IRType → Bool
  | TUint8 | TUint16 | TUint32 | TUint64 => true
  | TInt8 | TInt16 | TInt32 | TInt64 => true
  | _ => false

/-- Modelled from the spec: the method Width of a type. -/
def IRType.Width : IRType → Size
  | TUint8 | TInt8 => .BYTE
  | TUint16 | TInt16 => .WORD
  | TUint32 | TInt32 => .DOUBLE
  | _ => .QUADWORD

/-! ## The IR context (package `shared`) -/

/-- Modelled from the spec: the IR context, with the register occupancy (the Go
slice `Registers`), the variable map and the instruction sink. -/
structure IR_Context where
  Registers : List Bool
  VariableMap : List (String × Operand)
  Instructions : List Instruction
  deriving DecidableEq, Repr

/-- The read `ctx.Registers[i]`. -/
def IR_Context.reg (ctx : IR_Context) (i : Nat) : Bool := ctx.Registers.getD i false

/-- The read `ctx.VariableMap[name]`, nil when the key is absent. -/
def IR_Context.lookup (ctx : IR_Context) (name : String) : Operand :=
  match ctx.VariableMap.find? (fun kv => kv.1 = name) with
  | some kv => kv.2
  | none => .Nil

/-- Modelled from the spec: the sink is an "ordered append-only list". -/
def IR_Context.AddInstruction (ctx : IR_Context) (i : Instruction) : IR_Context :=
  { ctx with Instructions := ctx.Instructions ++ [i] }

/-- Modelled from the spec: AddInstructions appends a whole list to the sink. -/
def IR_Context.AddInstructions (ctx : IR_Context) (is : List Instruction) : IR_Context :=
  { ctx with Instructions := ctx.Instructions ++ is }

/-- Modelled from the spec: Copy "produces an independent snapshot of occupancy
and variable map"; as a value the snapshot is the context itself. -/
def IR_Context.Copy (ctx : IR_Context) : IR_Context := ctx

/-- The lowest index whose flag is false. -/
def firstFree : List Bool → Option Nat
  | [] => none
  | false :: _ => some 0
  | true :: rs => (firstFree rs).map (· + 1)

/-- Modelled from the spec: AllocateRegister "marks an unused index occupied and
returns a register of the requested width", "lowest-free-index first".  It
returns a register only, so with no free index there is nothing to return
(none). -/
def IR_Context.AllocateRegister (ctx : IR_Context) (typ : IRType) :
    Option (Register × IR_Context) :=
  match firstFree ctx.Registers with
  | none => none
  | some i =>
    some (⟨.GPR, i, typ.Width⟩, { ctx with Registers := ctx.Registers.set i true })

/-- Modelled from the spec: DeallocateRegister (release) "clears the index". -/
def IR_Context.DeallocateRegister (ctx : IR_Context) (r : Register) : IR_Context :=
  { ctx with Registers := ctx.Registers.set r.Register false }

/-- The assignment `ctx.Registers[i] = true`. -/
def IR_Context.markOccupied (ctx : IR_Context) (i : Nat) : IR_Context :=
  { ctx with Registers := ctx.Registers.set i true }

/-- One step of the loops of lines 61-65 and 80-84 of div.go: a variable bound
to a register of index `idx` is rebound to `tmp`. -/
def rebind (idx : Nat) (tmp : Register) (kv : String × Operand) : String × Operand :=
  match kv.2 with
  | .Register r => if r.Register = idx then (kv.1, .Register tmp) else kv
  | _ => kv

/-- The loops of lines 61-65 and 80-84 of div.go over the whole variable map. -/
def IR_Context.rebindAll (ctx : IR_Context) (idx : Nat) (tmp : Register) : IR_Context :=
  { ctx with VariableMap := ctx.VariableMap.map (rebind idx tmp) }

/-! ## IR expressions and the nodes that are not in `div.go` -/

/-- The IR expression tree as far as div.go looks at it: variables
(`Type() == Variable`, payload `Value`), literals, the IR_Div node, and `Other`
for a node of any other kind. -/
inductive IRExpression where
  | Variable (Value : String)
  | Literal (typ : IRType) (Value : Nat)
  | Other (tag : Nat)
  | Div (Op1 Op2 : IRExpression)
  deriving DecidableEq, Repr

/-- The errors of Encode: the one built on lines 35 and 164 of div.go, and
whatever a node of another kind reports. -/
inductive EncodeError where
  | UnsupportedTypes (returnType1 returnType2 : IRType) (expr : String)
  | External (msg : String)
  deriving DecidableEq, Repr

/-- What a call of Encode does: it returns instructions, returns an error, or
does not return (a run-time abort, as a failed type assertion or an allocation
with no free register). -/
inductive Outcome where
  | ok (instrs : List Instruction)
  | error (err : EncodeError)
  | abort
  deriving DecidableEq, Repr

/-- The methods of the nodes whose source is not div.go, taken as parameters:
ReturnType, Encode and String of every node other than IR_Div, and Encode of the
float operator node that line 38 builds with NewIR_Operator(asm.IDIV2, "/",
Op1, Op2). -/
structure Externals where
  returnTypeOf : IRExpression → IR_Context → IRType
  encodeOf : IRExpression → IR_Context → Operand → IR_Context × Outcome
  stringOf : IRExpression → String
  encodeOperator : IRExpression → IRExpression → IR_Context → Operand → IR_Context × Outcome

/-- The method ReturnType (lines 27-29 for IR_Div). -/
def ReturnType (E : Externals) : IRExpression → IR_Context → IRType
  | .Div Op1 _, ctx => ReturnType E Op1 ctx
  | e, ctx => E.returnTypeOf e ctx

/-- The method String (lines 167-169 for IR_Div). -/
def IRExpression.String (E : Externals) : IRExpression → String
  | .Div Op1 Op2 => IRExpression.String E Op1 ++ " / " ++ IRExpression.String E Op2
  | e => E.stringOf e

/-! ## `IR_Div.Encode`, integer recipe -/

/-- The local state of the integer recipe.  `ctx` is the caller's context;
`ctxCopy = none` says that the variable ctxCopy still points to the caller's
context (line 50), `some c` that it points to a snapshot; `tmpRdx` and `tmpRax`
are nil (none) until a preservation step sets them. -/
structure DivState where
  ctx : IR_Context
  ctxCopy : Option IR_Context
  tmpRdx : Option Register
  tmpRax : Option Register
  result : List Instruction
  deriving DecidableEq, Repr

/-- The context that the variable ctxCopy points to. -/
def DivState.cur (s : DivState) : IR_Context :=
  match s.ctxCopy with
  | none => s.ctx
  | some c => c

/-- A write through the variable ctxCopy. -/
def DivState.setCur (s : DivState) (c : IR_Context) : DivState :=
  match s.ctxCopy with
  | none => { s with ctx := c }
  | some _ => { s with ctxCopy := some c }

/-- Lines 53-66 of div.go: preserve rDX.  None when AllocateRegister has no
register to return. -/
def preserveRdx (shouldPreserveRdx : Bool) (s : DivState) : Option DivState :=
  if shouldPreserveRdx then
    match s.ctx.AllocateRegister TUint64 with
    | none => none
    | some (tmpRdx, ctx) =>
      let result := s.result ++ [MOV (.Register Rdx) (.Register tmpRdx)]
      let ctx := ctx.AddInstructions result
      let ctxCopy := (ctx.Copy).rebindAll 2 tmpRdx
      some { ctx := ctx, ctxCopy := some ctxCopy, tmpRdx := some tmpRdx,
             tmpRax := s.tmpRax, result := result }
  else some s

/-- Lines 69-73 of div.go: the snapshot from which the rAX scratch is
allocated, with rDX marked occupied for a width other than BYTE. -/
def raxBase (width : Size) (ctxCopy : IR_Context) : IR_Context :=
  let ctxCopy := ctxCopy.Copy
  if !ctxCopy.reg 2 && width != .BYTE then ctxCopy.markOccupied 2 else ctxCopy

/-- Lines 68-85 of div.go: preserve rAX. -/
def preserveRax (shouldPreserveRax : Bool) (width : Size) (s : DivState) : Option DivState :=
  if shouldPreserveRax then
    match (raxBase width s.cur).AllocateRegister TUint64 with
    | none => none
    | some (tmpRax, ctxCopy) =>
      let result := s.result ++ [MOV (.Register Rax) (.Register tmpRax)]
      let ctx := s.ctx.AddInstructions result
      let ctxCopy := ctxCopy.rebindAll 0 tmpRax
      some { ctx := ctx, ctxCopy := some ctxCopy, tmpRdx := s.tmpRdx,
             tmpRax := some tmpRax, result := result }
  else some s

/-- Lines 42-85 of div.go: the two flags and the preservation steps, from the
state of lines 49-50 (empty result, ctxCopy pointing to ctx). -/
def preserve (returnType1 : IRType) (treg : Register) (ctx : IR_Context) : Option DivState :=
  let raxInUse := ctx.reg 0
  let shouldPreserveRdx := (returnType1.Width != .BYTE) && ctx.reg 2
  let shouldPreserveRax := (treg.Register != 0) && raxInUse
  (preserveRdx shouldPreserveRdx ⟨ctx, none, none, none, []⟩).bind
    (preserveRax shouldPreserveRax returnType1.Width)

/-- How lines 96-109 of div.go end: with the divisor operand (and the register
allocated for it, to release on return), with an error, or not at all. -/
inductive DivisorStep where
  | done (s : DivState) (reg : Operand) (fresh : Option Register)
  | fail (s : DivState) (fresh : Option Register) (err : EncodeError)
  | abort
  deriving DecidableEq, Repr

/-- Lines 96-109 of div.go: the divisor operand. -/
def emitDivisor (enc2 : IR_Context → Operand → IR_Context × Outcome) (Op2 : IRExpression)
    (returnType2 : IRType) (s : DivState) : DivisorStep :=
  match Op2 with
  | .Variable name => .done s (s.cur.lookup name) none
  | _ =>
    match s.cur.AllocateRegister returnType2 with
    | none => .abort
    | some (reg, c) =>
      match enc2 c (.Register reg) with
      | (c2, .ok expr) =>
        .done { s.setCur c2 with result := s.result ++ expr } (.Register reg) (some reg)
      | (c2, .error err) => .fail (s.setCur c2) (some reg) err
      | (_, .abort) => .abort

/-- Lines 111-116 of div.go: the map zeroRegisters; nil for a key not in it. -/
def zeroRegisters : IRType → Operand
  | TUint8 => .Register Ah
  | TUint16 => .Register Dx
  | TUint32 => .Register Edx
  | TUint64 => .Register Rdx
  | _ => .Nil

/-- Lines 117-135 of div.go: the instruction that sets up the high half. -/
def highHalf (returnType1 : IRType) : Instruction :=
  if IsSignedInteger returnType1 then
    if returnType1 = TInt64 then CQO
    else if returnType1 = TInt32 then CDQ
    else if returnType1 = TInt16 then CWD
    else if returnType1 = TInt8 then CBW
    else .Nil
  else XOR (zeroRegisters returnType1) (zeroRegisters returnType1)

/-- Lines 137-140 of div.go: the divide instruction. -/
def divide (returnType1 : IRType) (reg : Operand) : Instruction :=
  if IsSignedInteger returnType1 then IDIV1 reg else DIV reg

/-- Lines 111-162 of div.go: high half, divide, quotient move and restores,
each appended to result and added to the caller's sink as the source does. -/
def finish (returnType1 : IRType) (target : Operand) (reg : Operand) (s : DivState) : DivState :=
  let rax : Operand := .Register (Rax.ForOperandWidth returnType1.Width)
  let result := s.result ++ [highHalf returnType1]
  let ctx := s.ctx.AddInstructions result
  let instr := divide returnType1 reg
  let ctx := ctx.AddInstruction instr
  let result := result ++ [instr]
  let s := { s with ctx := ctx, result := result }
  let s :=
    if rax ≠ target then
      { s with ctx := s.ctx.AddInstruction (MOV rax target), result := s.result ++ [MOV rax target] }
    else s
  let s :=
    match s.tmpRax with
    | some tmpRax =>
      let restore := MOV (.Register tmpRax) (.Register Rax)
      { s with ctx := s.ctx.AddInstruction restore, result := s.result ++ [restore] }
    | none => s
  match s.tmpRdx with
  | some tmpRdx =>
    let restore := MOV (.Register tmpRdx) (.Register Rdx)
    { s with ctx := s.ctx.AddInstruction restore, result := s.result ++ [restore] }
  | none => s

/-- The deferred calls of lines 55, 75 and 102 of div.go, run last-in first-out
when Encode returns: release of the divisor register and of the rAX scratch
through ctxCopy, release of the rDX scratch on the caller's context. -/
def runDefers (fresh : Option Register) (s : DivState) : DivState :=
  let s := match fresh with
    | some reg => s.setCur (s.cur.DeallocateRegister reg)
    | none => s
  let s := match s.tmpRax with
    | some tmpRax => s.setCur (s.cur.DeallocateRegister tmpRax)
    | none => s
  match s.tmpRdx with
  | some tmpRdx => { s with ctx := s.ctx.DeallocateRegister tmpRdx }
  | none => s

/-- Lines 42-162 of div.go, returning the final local state next to the
outcome. -/
def encodeIntegerState (enc1 enc2 : IR_Context → Operand → IR_Context × Outcome)
    (Op2 : IRExpression) (returnType1 returnType2 : IRType) (ctx : IR_Context)
    (target : Operand) : Option DivState × Outcome :=
  match target with
  | .Register treg =>
    match preserve returnType1 treg ctx with
    | none => (none, .abort)
    | some s =>
      let rax := Rax.ForOperandWidth returnType1.Width
      match enc1 s.cur (.Register rax) with
      | (_, .abort) => (none, .abort)
      | (c1, .error err) => (some (runDefers none (s.setCur c1)), .error err)
      | (c1, .ok op1) =>
        let s := { s.setCur c1 with result := s.result ++ op1 }
        match emitDivisor enc2 Op2 returnType2 s with
        | .abort => (none, .abort)
        | .fail s fresh err => (some (runDefers fresh s), .error err)
        | .done s reg fresh =>
          let s := finish returnType1 target reg s
          (some (runDefers fresh s), .ok s.result)
  | _ => (none, .abort)

/-- Lines 42-162 of div.go as the caller sees them: the caller's context after
the call (the context as given when the call aborts) and the outcome. -/
def encodeInteger (enc1 enc2 : IR_Context → Operand → IR_Context × Outcome)
    (Op2 : IRExpression) (returnType1 returnType2 : IRType) (ctx : IR_Context)
    (target : Operand) : IR_Context × Outcome :=
  match encodeIntegerState enc1 enc2 Op2 returnType1 returnType2 ctx target with
  | (some s, o) => (s.ctx, o)
  | (none, o) => (ctx, o)

/-- The method Encode (lines 31-165 for IR_Div). -/
def Encode (E : Externals) : IRExpression → IR_Context → Operand → IR_Context × Outcome
  | .Div Op1 Op2, ctx, target =>
    let ctx := ctx.AddInstruction
      (.Comment ("operator " ++ IRExpression.String E (.Div Op1 Op2)))
    let returnType1 := ReturnType E Op1 ctx
    let returnType2 := ReturnType E Op2 ctx
    if returnType1 ≠ returnType2 then
      (ctx, .error (.UnsupportedTypes returnType1 returnType2
        (IRExpression.String E (.Div Op1 Op2))))
    else if IsFloat returnType1 then
      E.encodeOperator Op1 Op2 ctx target
    else if IsInteger returnType1 then
      encodeInteger (fun c t => Encode E Op1 c t) (fun c t => Encode E Op2 c t) Op2
        returnType1 returnType2 ctx target
    else
      (ctx, .error (.UnsupportedTypes returnType1 returnType2
        (IRExpression.String E (.Div Op1 Op2))))
  | e, ctx, target => E.encodeOf e ctx target

/-! ## `IR_Div.SSA_Transform` -/

/-- The value built by NewSSA_Rewrite(v, expr): the binding of a variable to
an expression. -/
structure SSA_Rewrite where
  Variable : String
  Expr : IRExpression
  deriving DecidableEq, Repr

/-- The constructor NewSSA_Rewrite. -/
def NewSSA_Rewrite (v : String) (expr : IRExpression) : SSA_Rewrite := ⟨v, expr⟩

/-- Modelled from the spec: the predicate literal-or-variable of package shared. -/
def IsLiteralOrVariable : IRExpression → Bool
  | .Variable _ => true
  | .Literal _ _ => true
  | _ => false

/-- What SSA_Transform takes from elsewhere, as parameters over the state `σ`
of the SSA context: GenerateVariable, and SSA_Transform of every node other
than IR_Div. -/
structure SSAExternals (σ : Type) where
  GenerateVariable : σ → String × σ
  transformOf : IRExpression → σ → (List SSA_Rewrite × IRExpression) × σ

/-- The method SSA_Transform (lines 178-204 for IR_Div); the SSA context is
passed in and returned. -/
def SSA_Transform {σ : Type} (X : SSAExternals σ) :
    IRExpression → σ → (List SSA_Rewrite × IRExpression) × σ
  | .Div Op1 Op2, ctx =>
    if IsLiteralOrVariable Op1 then
      if IsLiteralOrVariable Op2 then
        (([], .Div Op1 Op2), ctx)
      else
        let r := SSA_Transform X Op2 ctx
        let g := X.GenerateVariable r.2
        let rewrites := r.1.1 ++ [NewSSA_Rewrite g.1 r.1.2]
        ((rewrites, .Div Op1 (.Variable g.1)), g.2)
    else
      let r := SSA_Transform X Op1 ctx
      let g := X.GenerateVariable r.2
      let rewrites := r.1.1 ++ [NewSSA_Rewrite g.1 r.1.2]
      if IsLiteralOrVariable Op2 then
        ((rewrites, .Div (.Variable g.1) Op2), g.2)
      else
        let r2 := SSA_Transform X Op2 g.2
        let rewrites := rewrites ++ r2.1.1
        let g2 := X.GenerateVariable r2.2
        let rewrites := rewrites ++ [NewSSA_Rewrite g2.1 r2.1.2]
        ((rewrites, .Div (.Variable g.1) (.Variable g2.1)), g2.2)
  | e, ctx => X.transformOf e ctx

/-! ## Leaves, for concrete runs -/

/-- Modelled from the spec: the typing of leaves and their emission, whose
source is missing.  A variable has the type the table `types` gives it and is
lowered to nothing when it is already in the target and to a move from its
operand otherwise (scenarios 4 and 5 of the spec); a variable that is not in the
map is an error (UndefinedVariable); a literal is lowered to an immediate
move.  What is emitted is also added to the sink. -/
def leafExternals (types : List (String × IRType)) : Externals where
  returnTypeOf e _ :=
    match e with
    | .Variable v =>
      match types.find? (fun kv => kv.1 = v) with
      | some kv => kv.2
      | none => TOther 0
    | .Literal t _ => t
    | _ => TOther 0
  encodeOf e ctx target :=
    match e with
    | .Variable v =>
      if ctx.lookup v = .Nil then (ctx, .error (.External "undefined variable"))
      else if ctx.lookup v = target then (ctx, .ok [])
      else (ctx.AddInstruction (MOV (ctx.lookup v) target), .ok [MOV (ctx.lookup v) target])
    | .Literal _ v =>
      (ctx.AddInstruction (MOV_immediate v target), .ok [MOV_immediate v target])
    | _ => (ctx, .error (.External "unsupported node"))
  stringOf e :=
    match e with
    | .Variable v => v
    | .Literal _ _ => "literal"
    | _ => "node"
  encodeOperator _ _ ctx _ := (ctx, .error (.External "float operator"))

/-- A register occupancy of 16 flags with exactly the listed indices set. -/
def occupied (idxs : List Nat) : List Bool :=
  (List.range 16).map (fun i => decide (i ∈ idxs))

/-- The general-purpose register of index `i` and width `w`. -/
def gpr (i : Nat) (w : Size) : Register := ⟨.GPR, i, w⟩

/-! ## The instructions of lines 111-162 in closed form -/

/-- Lines 144-148 of div.go: the quotient move, emitted unless target is the rAX
projection of the operation width. -/
def quotientMove (returnType1 : IRType) (target : Operand) : List Instruction :=
  if Operand.Register (Rax.ForOperandWidth returnType1.Width) ≠ target then
    [MOV (.Register (Rax.ForOperandWidth returnType1.Width)) target]
  else []

/-- Lines 150-161 of div.go: the restore of rAX, then the restore of rDX, each
emitted when its scratch was set. -/
def restoreMoves (tmpRax tmpRdx : Option Register) : List Instruction :=
  (match tmpRax with
    | some r => [MOV (.Register r) (.Register Rax)]
    | none => []) ++
  (match tmpRdx with
    | some r => [MOV (.Register r) (.Register Rdx)]
    | none => [])

/-- Everything lines 111-162 of div.go append to result: high-half setup,
divide, quotient move, restores. -/
def divTail (returnType1 : IRType) (target reg : Operand) (tmpRax tmpRdx : Option Register) :
    List Instruction :=
  highHalf returnType1 :: divide returnType1 reg ::
    (quotientMove returnType1 target ++ restoreMoves tmpRax tmpRdx)

/-! ## Notions used to state the theorems -/

/-- A call is allocation-balanced: whenever it returns, the register occupancy
of the context is what it was on entry. -/
def Balanced (f : IR_Context → Operand → IR_Context × Outcome) : Prop :=
  ∀ ctx target, (f ctx target).2 ≠ .abort → (f ctx target).1.Registers = ctx.Registers

/-- The caller's register occupancy once the deferred release of the rDX scratch
has run. -/
def DivState.callerRegs (s : DivState) : List Bool :=
  match s.tmpRdx with
  | none => s.ctx.Registers
  | some r => s.ctx.Registers.set r.Register false

/-- While ctxCopy still points to the caller's context no scratch is set. -/
def DivState.NoScratchIfShared (s : DivState) : Prop :=
  s.ctxCopy = none → s.tmpRdx = none ∧ s.tmpRax = none

/-- The rewrites R(e) of one operand in the words of the spec: nothing for a
literal or variable, which stays in the root; otherwise the rewrites of the
transform of e followed by the binding of a fresh variable to the transformed
expression, the variable standing for e in the root.  The SSA context is passed
in and returned. -/
def operandRewrites {σ : Type} (X : SSAExternals σ) (e : IRExpression) (ctx : σ) :
    (List SSA_Rewrite × IRExpression) × σ :=
  if IsLiteralOrVariable e then (([], e), ctx)
  else
    let r := SSA_Transform X e ctx
    let g := X.GenerateVariable r.2
    ((r.1.1 ++ [NewSSA_Rewrite g.1 r.1.2], .Variable g.1), g.2)

/-- The context in which Encode of IR_Div reads the operand types: the entry
context with the operator comment of line 32 in the sink. -/
def withComment (E : Externals) (Op1 Op2 : IRExpression) (ctx : IR_Context) : IR_Context :=
  ctx.AddInstruction (.Comment ("operator " ++ IRExpression.String E (.Div Op1 Op2)))

/-- The error of lines 35 and 164 of div.go. -/
def unsupportedTypes (E : Externals) (Op1 Op2 : IRExpression) (ctx : IR_Context) : Outcome :=
  .error (.UnsupportedTypes (ReturnType E Op1 (withComment E Op1 Op2 ctx))
    (ReturnType E Op2 (withComment E Op1 Op2 ctx)) (IRExpression.String E (.Div Op1 Op2)))

/-- Leaves typed uint32, for concrete runs. -/
def leaves32 : Externals :=
  leafExternals [("a", TUint32), ("b", TUint32)]

/-- Leaves typed uint64, for concrete runs. -/
def leaves64 : Externals :=
  leafExternals [("a", TUint64), ("b", TUint64)]

/-- The contract on the sink as the code keeps it: when a call returns
instructions, what it appended to the sink ends with what it returned. -/
def SinkContract (f : IR_Context → Operand → IR_Context × Outcome) : Prop :=
  ∀ ctx target r, (f ctx target).2 = .ok r →
    ∃ mid, (f ctx target).1.Instructions = ctx.Instructions ++ (mid ++ r)

/-- A call leaves the variable map of the context it is given as it was. -/
def KeepsVariableMap (f : IR_Context → Operand → IR_Context × Outcome) : Prop :=
  ∀ ctx target, (f ctx target).1.VariableMap = ctx.VariableMap

/-- The operand a binding becomes when registers of index `idx` are rebound to
the scratch `tmp`, if there is one. -/
def rebindTo (idx : Nat) (tmp : Option Register) (op : Operand) : Operand :=
  match tmp, op with
  | some t, .Register r => if r.Register = idx then .Register t else op
  | _, _ => op

/-- An instruction built from the opcode table DIV or IDIV1: a divide. -/
def isDivide : Instruction → Bool
  | .OpcodesToInstruction _ .DIV _ _ => true
  | .OpcodesToInstruction _ .IDIV1 _ _ => true
  | _ => false

/-! ## Concrete inputs -/

/-- The register constant encoding.Eax. -/
def Eax : Register := ⟨.GPR, 0, .DOUBLE⟩
/-- The register constant encoding.Ecx. -/
def Ecx : Register := ⟨.GPR, 1, .DOUBLE⟩
/-- The register constant encoding.Esi. -/
def Esi : Register := ⟨.GPR, 6, .DOUBLE⟩
/-- The register constant encoding.Edi. -/
def Edi : Register := ⟨.GPR, 7, .DOUBLE⟩
/-- The register constant encoding.Rcx. -/
def Rcx : Register := ⟨.GPR, 1, .QUADWORD⟩
/-- The register constant encoding.Rbx. -/
def Rbx : Register := ⟨.GPR, 3, .QUADWORD⟩
/-- The register constant encoding.Rsi. -/
def Rsi : Register := ⟨.GPR, 6, .QUADWORD⟩
/-- The register constant encoding.Rdi. -/
def Rdi : Register := ⟨.GPR, 7, .QUADWORD⟩

/-- The node a / b over two variables. -/
def aDivB : IRExpression := .Div (.Variable "a") (.Variable "b")

/-- The node a / 5 with a uint32 literal divisor. -/
def aDiv5 : IRExpression := .Div (.Variable "a") (.Literal TUint32 5)

/-- Variables a in rSI and b in rDI (uint64), rAX and rDX occupied, empty sink. -/
def ctxRdxTarget : IR_Context :=
  ⟨occupied [0, 2, 6, 7], [("a", .Register Rsi), ("b", .Register Rdi)], []⟩

/-- Variables a in ESI, b in EDI and c in rDX, rCX reserved as target, rAX
free, empty sink. -/
def ctxRaxFree : IR_Context :=
  ⟨occupied [1, 2, 6, 7],
    [("a", .Register Esi), ("b", .Register Edi), ("c", .Register Rdx)], []⟩

/-- Variable a in ECX, rAX reserved as target, rDX free, empty sink. -/
def ctxRdxFree : IR_Context :=
  ⟨occupied [0, 1], [("a", .Register Ecx)], []⟩

/-- Scenario 4 of the spec: a in EAX, b in ECX, rDX free, empty sink. -/
def ctxScenario4 : IR_Context :=
  ⟨occupied [0, 1], [("a", .Register Eax), ("b", .Register Ecx)], []⟩

/-- Leaves a of type uint32 and b of type uint64, for a run with two operand
types. -/
def leavesMixed : Externals :=
  leafExternals [("a", TUint32), ("b", TUint64)]

/-- Leaves a and b of a type that is neither integer nor float. -/
def leavesOther : Externals :=
  leafExternals [("a", TOther 1), ("b", TOther 1)]

/-! ## Notions for the immediate constructors -/

/-- The destination test of lines 35 and 149 of assembler.go: a register of
width BYTE. -/
def isByteRegister : Operand → Bool
  | .Register reg => decide (reg.Width = .BYTE)
  | _ => false

/-- The destination test of line 152 of assembler.go: a register of width
WORD. -/
def isWordRegister : Operand → Bool
  | .Register reg => decide (reg.Width = .WORD)
  | _ => false

/-- A byte-wide destination in the words of the spec: a register or a memory
reference of width BYTE. -/
def isByteWide : Operand → Bool
  | .Register reg => decide (reg.Width = .BYTE)
  | .Memory _ _ width => decide (width = .BYTE)
  | _ => false

/-- The value of an immediate operand. -/
def Operand.immediate : Operand → Option Nat
  | .Uint8 v => some v
  | .Uint16 v => some v
  | .Uint32 v => some v
  | .Uint64 v => some v
  | _ => none

/-- The value of the immediate that an instruction with the operand tuple
(dest, immediate) carries. -/
def Instruction.immediate : Instruction → Option Nat
  | .OpcodesToInstruction _ _ _ [_, src] => src.immediate
  | _ => none

/-- The register constant encoding.Ax. -/
def Ax : Register := ⟨.GPR, 0, .WORD⟩
/-- The register constant encoding.Al. -/
def Al : Register := ⟨.GPR, 0, .BYTE⟩

/-- Variable a in EAX, no binding for b, rDX free, empty sink. -/
def ctxNoDivisor : IR_Context :=
  ⟨occupied [0], [("a", .Register Eax)], []⟩

/-- Lines 56-57 and 76-77 of div.go: the preserve move of rDX, then the preserve
move of rAX, each emitted when its scratch was set. -/
def preserveMoves (tmpRdx tmpRax : Option Register) : List Instruction :=
  (match tmpRdx with
    | some r => [MOV (.Register Rdx) (.Register r)]
    | none => []) ++
  (match tmpRax with
    | some r => [MOV (.Register Rax) (.Register r)]
    | none => [])

/-- Leaves typed int32, for concrete runs. -/
def leavesInt32 : Externals :=
  leafExternals [("a", TInt32), ("b", TInt32)]

/-- Scenario 5 of the spec: a in EDI, b in ESI, rAX occupied, empty sink. -/
def ctxScenario5 : IR_Context :=
  ⟨occupied [0, 6, 7], [("a", .Register Edi), ("b", .Register Esi)], []⟩

/-- The register constant encoding.Ebx. -/
def Ebx : Register := ⟨.GPR, 3, .DOUBLE⟩
/-- The register constant encoding.Rsp, index 4. -/
def Rsp : Register := ⟨.GPR, 4, .QUADWORD⟩

/-- Variables a in ESI and b in EDI, rAX and rDX occupied, rBX reserved as
target, empty sink. -/
def ctxBothLive : IR_Context :=
  ⟨occupied [0, 2, 3, 6, 7], [("a", .Register Esi), ("b", .Register Edi)], []⟩

/-! ## Evaluation of expressions and of flattened programs -/

/-- The variables that occur in an expression. -/
def vars : IRExpression → List String
  | .Variable v => [v]
  | .Literal _ _ => []
  | .Other _ => []
  | .Div Op1 Op2 => vars Op1 ++ vars Op2

/-- A tree built from IR_Div nodes over literals and variables. -/
def isDivTree : IRExpression → Bool
  | .Variable _ => true
  | .Literal _ _ => true
  | .Other _ => false
  | .Div Op1 Op2 => isDivTree Op1 && isDivTree Op2

/-- The value of a tree of divisions in an environment, left operand first; none
is the division-by-zero failure.  A division is the truncating integer
division; a node of another kind has no value here. -/
def eval (env : String → Int) : IRExpression → Option Int
  | .Variable v => some (env v)
  | .Literal _ n => some (n : Int)
  | .Other _ => none
  | .Div Op1 Op2 =>
    match eval env Op1 with
    | none => none
    | some x =>
      match eval env Op2 with
      | none => none
      | some y => if y = 0 then none else some (Int.tdiv x y)

/-- The environment after the binding of `v` to `x`. -/
def bindVar (env : String → Int) (v : String) (x : Int) : String → Int :=
  fun w => if w = v then x else env w

/-- The rewrites run in list order as successive bindings; none when an
expression fails. -/
def runRewrites (env : String → Int) : List SSA_Rewrite → Option (String → Int)
  | [] => some env
  | r :: rs =>
    match eval env r.Expr with
    | none => none
    | some x => runRewrites (bindVar env r.Variable x) rs

/-- The value of a flattened program: the rewrites are run, then the root is
evaluated in the environment they leave. -/
def evalFlattened (env : String → Int) (p : List SSA_Rewrite × IRExpression) : Option Int :=
  match runRewrites env p.1 with
  | none => none
  | some env1 => eval env1 p.2

/-- The variables that a list of rewrites binds, in order. -/
def boundNames (rewrites : List SSA_Rewrite) : List String :=
  rewrites.map (fun r => r.Variable)

/-- Every rewrite uses only variables of `avail` or variables bound by a rewrite
before it. -/
def wellScoped (avail : List String) : List SSA_Rewrite → Bool
  | [] => true
  | r :: rs =>
    (vars r.Expr).all (fun v => decide (v ∈ avail)) && wellScoped (r.Variable :: avail) rs

/-- The SSA context after `n` calls of GenerateVariable. -/
def genState {σ : Type} (X : SSAExternals σ) (ctx : σ) : Nat → σ
  | 0 => ctx
  | n + 1 => (X.GenerateVariable (genState X ctx n)).2

/-- The variable that the call number `n` (from 0) of GenerateVariable returns. -/
def genName {σ : Type} (X : SSAExternals σ) (ctx : σ) (n : Nat) : String :=
  (X.GenerateVariable (genState X ctx n)).1

/-- The number of variables generated for an operand: one for every IR_Div node
in it. -/
def opCount : IRExpression → Nat
  | .Div Op1 Op2 => opCount Op1 + opCount Op2 + 1
  | _ => 0

/-- What the rewrites `rewrites` and the operand `opnd` that stand for `e` have
to satisfy, with `N` the generated names and `k`, `n` the first number and the
count of those used: they bind these names in order, use only variables of e or
bound before, and for every environment run to a failure only when e fails and
otherwise to an environment that differs from the given one on bound names only
and in which opnd has the value of e. -/
def FlattenSpec (N : Nat → String) (e : IRExpression) (k n : Nat)
    (rewrites : List SSA_Rewrite) (opnd : IRExpression) : Prop :=
  boundNames rewrites = (List.range' k n).map N ∧
  (∀ v ∈ vars opnd, v ∈ vars e ∨ v ∈ boundNames rewrites) ∧
  wellScoped (vars e) rewrites = true ∧
  ∀ env : String → Int,
    (runRewrites env rewrites = none → eval env e = none) ∧
    (∀ env1, runRewrites env rewrites = some env1 →
      eval env1 opnd = eval env e ∧ ∀ w, w ∉ boundNames rewrites → env1 w = env w)

/-- An SSA context that counts: the call number n of GenerateVariable returns
the name made of n + 1 letters t; a leaf is its own transform. -/
def tickNames : SSAExternals Nat where
  GenerateVariable n := (String.mk (List.replicate (n + 1) 't'), n + 1)
  transformOf e n := (([], e), n)

/-- The tree (a / b) / (c / d). -/
def abDivCd : IRExpression :=
  .Div (.Div (.Variable "a") (.Variable "b")) (.Div (.Variable "c") (.Variable "d"))

/-- The environment a = 12, b = 3, c = 4, d = 2, every other variable 0. -/
def env1234 : String → Int :=
  fun v => if v = "a" then 12 else if v = "b" then 3 else if v = "c" then 4
    else if v = "d" then 2 else 0

/-- Variables a in ESI, b in EDI, c in rDX and d in EAX, rAX and rDX occupied,
rBX reserved as target, empty sink. -/
def ctxRebind : IR_Context :=
  ⟨occupied [0, 2, 3, 6, 7],
    [("a", .Register Esi), ("b", .Register Edi), ("c", .Register Rdx),
      ("d", .Register Eax)], []⟩

/-! # Theorems -/

/-! ## Lemmas on the allocator and on the phases of the integer recipe -/

theorem firstFree_set_set (l : List Bool) (i : Nat) (h : firstFree l = some i) :
    (l.set i true).set i false = l := by
  induction l generalizing i with
  | nil => simp [firstFree] at h
  | cons b rs ih =>
    cases b with
    | false =>
      simp [firstFree] at h
      subst h
      simp
    | true =>
      simp only [firstFree, Option.map_eq_some'] at h
      obtain ⟨j, hj, rfl⟩ := h
      simp [ih j hj]

theorem firstFree_getD (l : List Bool) (i : Nat) (h : firstFree l = some i) :
    l.getD i false = false := by
  induction l generalizing i with
  | nil => simp [firstFree] at h
  | cons b rs ih =>
    cases b with
    | false =>
      simp [firstFree] at h
      subst h
      simp
    | true =>
      simp only [firstFree, Option.map_eq_some'] at h
      obtain ⟨j, hj, rfl⟩ := h
      simpa using ih j hj

theorem finish_result (t : IRType) (target reg : Operand) (s : DivState) :
    (finish t target reg s).result = s.result ++ divTail t target reg s.tmpRax s.tmpRdx := by
  obtain ⟨ctx, cc, tdx, tax, res⟩ := s
  unfold finish divTail quotientMove restoreMoves
  by_cases h : Operand.Register (Rax.ForOperandWidth t.Width) = target <;>
    cases tdx <;> cases tax <;> simp [h]

theorem finish_ctx (t : IRType) (target reg : Operand) (s : DivState) :
    (finish t target reg s).ctx =
      { s.ctx with Instructions :=
          s.ctx.Instructions ++ (s.result ++ divTail t target reg s.tmpRax s.tmpRdx) } := by
  obtain ⟨ctx, cc, tdx, tax, res⟩ := s
  unfold finish divTail quotientMove restoreMoves
  by_cases h : Operand.Register (Rax.ForOperandWidth t.Width) = target <;>
    cases tdx <;> cases tax <;>
    simp [h, IR_Context.AddInstruction, IR_Context.AddInstructions]

theorem finish_frame (t : IRType) (target reg : Operand) (s : DivState) :
    (finish t target reg s).ctxCopy = s.ctxCopy ∧ (finish t target reg s).tmpRdx = s.tmpRdx ∧
      (finish t target reg s).tmpRax = s.tmpRax := by
  obtain ⟨ctx, cc, tdx, tax, res⟩ := s
  unfold finish
  by_cases h : Operand.Register (Rax.ForOperandWidth t.Width) = target <;>
    cases tdx <;> cases tax <;> simp [h]


theorem preserveRdx_some (b : Bool) (s s1 : DivState) (h : preserveRdx b s = some s1) :
    (b = false ∧ s1 = s) ∨
    (b = true ∧ ∃ i, firstFree s.ctx.Registers = some i ∧
      s1 = { ctx := { s.ctx with
                      Registers := s.ctx.Registers.set i true
                      Instructions := s.ctx.Instructions ++
                        (s.result ++ [MOV (.Register Rdx) (.Register (gpr i .QUADWORD))]) }
             ctxCopy := some (IR_Context.rebindAll
                { s.ctx with
                  Registers := s.ctx.Registers.set i true
                  Instructions := s.ctx.Instructions ++
                    (s.result ++ [MOV (.Register Rdx) (.Register (gpr i .QUADWORD))]) }
                2 (gpr i .QUADWORD))
             tmpRdx := some (gpr i .QUADWORD)
             tmpRax := s.tmpRax
             result := s.result ++ [MOV (.Register Rdx) (.Register (gpr i .QUADWORD))] }) := by
  cases b with
  | false => left; simpa [preserveRdx, eq_comm] using h
  | true =>
    right
    refine ⟨rfl, ?_⟩
    simp only [preserveRdx, IR_Context.AllocateRegister, if_true] at h
    cases hf : firstFree s.ctx.Registers with
    | none => simp [hf] at h
    | some i =>
      refine ⟨i, rfl, ?_⟩
      simp only [hf] at h
      injection h with h
      rw [← h]
      rfl

theorem preserveRax_some (b : Bool) (w : Size) (s s1 : DivState)
    (h : preserveRax b w s = some s1) :
    (b = false ∧ s1 = s) ∨
    (b = true ∧ ∃ j, firstFree (raxBase w s.cur).Registers = some j ∧
      s1 = { ctx := s.ctx.AddInstructions
                (s.result ++ [MOV (.Register Rax) (.Register (gpr j .QUADWORD))])
             ctxCopy := some (IR_Context.rebindAll
                { raxBase w s.cur with Registers := (raxBase w s.cur).Registers.set j true }
                0 (gpr j .QUADWORD))
             tmpRdx := s.tmpRdx
             tmpRax := some (gpr j .QUADWORD)
             result := s.result ++ [MOV (.Register Rax) (.Register (gpr j .QUADWORD))] }) := by
  cases b with
  | false => left; simpa [preserveRax, eq_comm] using h
  | true =>
    right
    refine ⟨rfl, ?_⟩
    simp only [preserveRax, IR_Context.AllocateRegister, if_true] at h
    cases hf : firstFree (raxBase w s.cur).Registers with
    | none => simp [hf] at h
    | some j =>
      refine ⟨j, rfl, ?_⟩
      simp only [hf] at h
      injection h with h
      rw [← h]
      rfl

theorem preserve_some (t : IRType) (treg : Register) (ctx : IR_Context) (s : DivState)
    (h : preserve t treg ctx = some s) :
    ∃ s1, preserveRdx ((t.Width != .BYTE) && ctx.reg 2) ⟨ctx, none, none, none, []⟩ = some s1 ∧
      preserveRax ((treg.Register != 0) && ctx.reg 0) t.Width s1 = some s := by
  simpa [preserve, Option.bind_eq_some] using h

theorem preserve_callerRegs (t : IRType) (treg : Register) (ctx : IR_Context) (s : DivState)
    (h : preserve t treg ctx = some s) :
    s.NoScratchIfShared ∧ s.callerRegs = ctx.Registers := by
  obtain ⟨s1, h1, h2⟩ := preserve_some t treg ctx s h
  rcases preserveRdx_some _ _ _ h1 with ⟨-, rfl⟩ | ⟨-, i, hi, rfl⟩
  · rcases preserveRax_some _ _ _ _ h2 with ⟨-, rfl⟩ | ⟨-, j, hj, rfl⟩ <;>
      simp [DivState.NoScratchIfShared, DivState.callerRegs, IR_Context.AddInstructions]
  · have hi2 : firstFree ctx.Registers = some i := hi
    rcases preserveRax_some _ _ _ _ h2 with ⟨-, rfl⟩ | ⟨-, j, hj, rfl⟩ <;>
      simp [DivState.NoScratchIfShared, DivState.callerRegs, IR_Context.AddInstructions,
        firstFree_set_set _ _ hi2, gpr]

theorem emitDivisor_done (enc2 : IR_Context → Operand → IR_Context × Outcome)
    (Op2 : IRExpression) (t2 : IRType) (s s2 : DivState) (reg : Operand)
    (fresh : Option Register) (h : emitDivisor enc2 Op2 t2 s = .done s2 reg fresh) :
    (∃ name, Op2 = .Variable name ∧ s2 = s ∧ reg = s.cur.lookup name ∧ fresh = none) ∨
    ((∀ name, Op2 ≠ .Variable name) ∧ ∃ i c2 expr,
      firstFree s.cur.Registers = some i ∧
      enc2 { s.cur with Registers := s.cur.Registers.set i true }
        (.Register (gpr i t2.Width)) = (c2, .ok expr) ∧
      s2 = { s.setCur c2 with result := s.result ++ expr } ∧
      reg = .Register (gpr i t2.Width) ∧ fresh = some (gpr i t2.Width)) := by
  cases Op2 with
  | Variable name =>
    left
    simp only [emitDivisor, DivisorStep.done.injEq] at h
    exact ⟨name, rfl, h.1.symm, h.2.1.symm, h.2.2.symm⟩
  | Literal _ _ | Other _ | Div _ _ =>
    right
    refine ⟨by simp, ?_⟩
    simp only [emitDivisor, IR_Context.AllocateRegister] at h
    cases hf : firstFree s.cur.Registers with
    | none => simp [hf] at h
    | some i =>
      simp only [hf] at h
      generalize he : enc2 _ _ = r at h
      obtain ⟨c2, o⟩ := r
      cases o with
      | ok expr =>
        simp only [DivisorStep.done.injEq] at h
        exact ⟨i, c2, expr, rfl, he, h.1.symm, h.2.1.symm, h.2.2.symm⟩
      | error e => simp at h
      | abort => simp at h

theorem emitDivisor_fail (enc2 : IR_Context → Operand → IR_Context × Outcome)
    (Op2 : IRExpression) (t2 : IRType) (s s2 : DivState) (err : EncodeError)
    (fresh : Option Register) (h : emitDivisor enc2 Op2 t2 s = .fail s2 fresh err) :
    ∃ i c2, firstFree s.cur.Registers = some i ∧
      enc2 { s.cur with Registers := s.cur.Registers.set i true }
        (.Register (gpr i t2.Width)) = (c2, .error err) ∧
      s2 = s.setCur c2 ∧ fresh = some (gpr i t2.Width) := by
  cases Op2 with
  | Variable name => simp [emitDivisor] at h
  | Literal _ _ | Other _ | Div _ _ =>
    simp only [emitDivisor, IR_Context.AllocateRegister] at h
    cases hf : firstFree s.cur.Registers with
    | none => simp [hf] at h
    | some i =>
      simp only [hf] at h
      generalize he : enc2 _ _ = r at h
      obtain ⟨c2, o⟩ := r
      cases o with
      | ok expr => simp at h
      | error e =>
        simp only [DivisorStep.fail.injEq] at h
        obtain ⟨h1, h2, h3⟩ := h
        subst h3
        exact ⟨i, c2, rfl, he, h1.symm, h2.symm⟩
      | abort => simp at h

/-- Every return of the integer recipe, read off the phases. -/
theorem encodeIntegerState_cases (enc1 enc2 : IR_Context → Operand → IR_Context × Outcome)
    (Op2 : IRExpression) (t1 t2 : IRType) (ctx : IR_Context) (target : Operand)
    (st : Option DivState) (o : Outcome)
    (h : encodeIntegerState enc1 enc2 Op2 t1 t2 ctx target = (st, o)) (ho : o ≠ .abort) :
    ∃ treg s c1 o1, target = .Register treg ∧ preserve t1 treg ctx = some s ∧
      enc1 s.cur (.Register (Rax.ForOperandWidth t1.Width)) = (c1, o1) ∧
      ((∃ err, o1 = .error err ∧ o = .error err ∧ st = some (runDefers none (s.setCur c1))) ∨
       (∃ op1 s2 fresh err, o1 = .ok op1 ∧
          emitDivisor enc2 Op2 t2 { s.setCur c1 with result := s.result ++ op1 } =
            .fail s2 fresh err ∧
          o = .error err ∧ st = some (runDefers fresh s2)) ∨
       (∃ op1 s2 reg fresh, o1 = .ok op1 ∧
          emitDivisor enc2 Op2 t2 { s.setCur c1 with result := s.result ++ op1 } =
            .done s2 reg fresh ∧
          o = .ok (finish t1 target reg s2).result ∧
          st = some (runDefers fresh (finish t1 target reg s2)))) := by
  unfold encodeIntegerState at h
  cases target with
  | Register treg =>
    simp only at h
    cases hp : preserve t1 treg ctx with
    | none =>
      simp only [hp, Prod.mk.injEq] at h
      exact absurd h.2.symm ho
    | some s =>
      simp only [hp] at h
      generalize he : enc1 s.cur (.Register (Rax.ForOperandWidth t1.Width)) = r at h
      obtain ⟨c1, o1⟩ := r
      refine ⟨treg, s, c1, o1, rfl, hp, he, ?_⟩
      cases o1 with
      | abort =>
        simp only [Prod.mk.injEq] at h
        exact absurd h.2.symm ho
      | error err =>
        simp only [Prod.mk.injEq] at h
        exact Or.inl ⟨err, rfl, h.2.symm, h.1.symm⟩
      | ok op1 =>
        simp only at h
        generalize hd : emitDivisor enc2 Op2 t2 _ = d at h
        cases d with
        | abort =>
          simp only [Prod.mk.injEq] at h
          exact absurd h.2.symm ho
        | fail s2 fresh err =>
          simp only [Prod.mk.injEq] at h
          exact Or.inr (Or.inl ⟨op1, s2, fresh, err, rfl, hd, h.2.symm, h.1.symm⟩)
        | done s2 reg fresh =>
          simp only [Prod.mk.injEq] at h
          exact Or.inr (Or.inr ⟨op1, s2, reg, fresh, rfl, hd, h.2.symm, h.1.symm⟩)
  | _ =>
    simp only [Prod.mk.injEq] at h
    exact absurd h.2.symm ho

theorem runDefers_finish_regs (t : IRType) (target reg : Operand) (fresh : Option Register)
    (s : DivState) :
    (runDefers fresh (finish t target reg s)).ctx.Registers = (runDefers fresh s).ctx.Registers := by
  obtain ⟨hc, hd, ha⟩ := finish_frame t target reg s
  have hx := finish_ctx t target reg s
  generalize finish t target reg s = f at hc hd ha hx
  obtain ⟨fctx, fcc, ftdx, ftax, fres⟩ := f
  obtain ⟨ctx, cc, tdx, tax, res⟩ := s
  simp only at hc hd ha hx
  subst hc hd ha hx
  cases fcc <;> cases ftdx <;> cases ftax <;> cases fresh <;>
    simp [runDefers, DivState.setCur, DivState.cur, IR_Context.DeallocateRegister]

theorem runDefers_result_regs (fresh : Option Register) (s : DivState) (r : List Instruction) :
    (runDefers fresh { s with result := r }).ctx.Registers = (runDefers fresh s).ctx.Registers := by
  obtain ⟨ctx, cc, tdx, tax, res⟩ := s
  cases cc <;> cases tdx <;> cases tax <;> cases fresh <;>
    simp [runDefers, DivState.setCur, DivState.cur, IR_Context.DeallocateRegister]

theorem runDefers_none_regs (s : DivState) (hs : s.NoScratchIfShared) :
    (runDefers none s).ctx.Registers = s.callerRegs := by
  obtain ⟨ctx, cc, tdx, tax, res⟩ := s
  cases cc with
  | none =>
    obtain ⟨rfl, rfl⟩ := hs rfl
    simp [runDefers, DivState.callerRegs]
  | some c =>
    cases tdx <;> cases tax <;>
      simp [runDefers, DivState.setCur, DivState.cur, IR_Context.DeallocateRegister,
        DivState.callerRegs]

theorem runDefers_setCur_regs (s : DivState) (c : IR_Context) (hs : s.NoScratchIfShared)
    (hc : c.Registers = s.cur.Registers) :
    (runDefers none (s.setCur c)).ctx.Registers = s.callerRegs := by
  obtain ⟨ctx, cc, tdx, tax, res⟩ := s
  cases cc with
  | none =>
    obtain ⟨rfl, rfl⟩ := hs rfl
    simpa [runDefers, DivState.callerRegs, DivState.setCur, DivState.cur] using hc
  | some c0 =>
    cases tdx <;> cases tax <;>
      simp [runDefers, DivState.setCur, DivState.cur, IR_Context.DeallocateRegister,
        DivState.callerRegs]

theorem runDefers_fresh_regs (s : DivState) (c : IR_Context) (i : Nat) (w : Size)
    (hs : s.NoScratchIfShared) (hi : firstFree s.cur.Registers = some i)
    (hc : c.Registers = s.cur.Registers.set i true) :
    (runDefers (some (gpr i w)) (s.setCur c)).ctx.Registers = s.callerRegs := by
  obtain ⟨ctx, cc, tdx, tax, res⟩ := s
  cases cc with
  | none =>
    obtain ⟨rfl, rfl⟩ := hs rfl
    simp only [DivState.cur] at hi hc
    simp [runDefers, DivState.callerRegs, DivState.setCur, DivState.cur,
      IR_Context.DeallocateRegister, hc, gpr, firstFree_set_set _ _ hi]
  | some c0 =>
    cases tdx <;> cases tax <;>
      simp [runDefers, DivState.setCur, DivState.cur, IR_Context.DeallocateRegister,
        DivState.callerRegs]

theorem setCur_noScratch (s : DivState) (c : IR_Context) (r : List Instruction)
    (hs : s.NoScratchIfShared) :
    DivState.NoScratchIfShared { s.setCur c with result := r } ∧
    DivState.callerRegs { s.setCur c with result := r } =
      (match s.ctxCopy with
        | none => c.Registers
        | some _ => s.callerRegs) ∧
    DivState.cur { s.setCur c with result := r } = c := by
  obtain ⟨ctx, cc, tdx, tax, res⟩ := s
  cases cc with
  | none =>
    obtain ⟨rfl, rfl⟩ := hs rfl
    simp [DivState.NoScratchIfShared, DivState.callerRegs, DivState.setCur, DivState.cur]
  | some c0 =>
    simp [DivState.NoScratchIfShared, DivState.callerRegs, DivState.setCur, DivState.cur]

theorem encodeIntegerState_balanced (enc1 enc2 : IR_Context → Operand → IR_Context × Outcome)
    (Op2 : IRExpression) (t1 t2 : IRType) (ctx : IR_Context) (target : Operand)
    (st : Option DivState) (o : Outcome) (h1 : Balanced enc1) (h2 : Balanced enc2)
    (h : encodeIntegerState enc1 enc2 Op2 t1 t2 ctx target = (st, o)) (ho : o ≠ .abort) :
    ∃ s, st = some s ∧ s.ctx.Registers = ctx.Registers := by
  obtain ⟨treg, s, c1, o1, -, hp, he, hcases⟩ :=
    encodeIntegerState_cases enc1 enc2 Op2 t1 t2 ctx target st o h ho
  obtain ⟨hs, hregs⟩ := preserve_callerRegs t1 treg ctx s hp
  have hc1 : o1 ≠ .abort → c1.Registers = s.cur.Registers := by
    intro hne
    have := h1 s.cur (.Register (Rax.ForOperandWidth t1.Width))
    rw [he] at this
    exact this hne
  rcases hcases with ⟨err, rfl, -, rfl⟩ | ⟨op1, s2, fresh, err, rfl, hd, -, rfl⟩ |
    ⟨op1, s2, reg, fresh, rfl, hd, -, rfl⟩
  · refine ⟨_, rfl, ?_⟩
    rw [runDefers_setCur_regs s c1 hs (hc1 (by simp)), hregs]
  · have hc := hc1 (by simp)
    obtain ⟨hs1, hr1, hcur1⟩ := setCur_noScratch s c1 (s.result ++ op1) hs
    have hcaller : DivState.callerRegs { s.setCur c1 with result := s.result ++ op1 } =
        ctx.Registers := by
      rw [hr1, ← hregs]
      cases hcc : s.ctxCopy with
      | none =>
        obtain ⟨hx, -⟩ := hs hcc
        simp [DivState.callerRegs, hx, hc, DivState.cur, hcc]
      | some c0 => rfl
    obtain ⟨i, c2, hi, he2, rfl, rfl⟩ := emitDivisor_fail enc2 Op2 t2 _ s2 err fresh hd
    refine ⟨_, rfl, ?_⟩
    have hb := h2 { DivState.cur { s.setCur c1 with result := s.result ++ op1 } with
        Registers := (DivState.cur { s.setCur c1 with result := s.result ++ op1 }).Registers.set i true }
      (.Register (gpr i t2.Width))
    rw [he2] at hb
    rw [runDefers_fresh_regs _ c2 i _ hs1 hi (hb (by simp)), hcaller]
  · have hc := hc1 (by simp)
    obtain ⟨hs1, hr1, hcur1⟩ := setCur_noScratch s c1 (s.result ++ op1) hs
    have hcaller : DivState.callerRegs { s.setCur c1 with result := s.result ++ op1 } =
        ctx.Registers := by
      rw [hr1, ← hregs]
      cases hcc : s.ctxCopy with
      | none =>
        obtain ⟨hx, -⟩ := hs hcc
        simp [DivState.callerRegs, hx, hc, DivState.cur, hcc]
      | some c0 => rfl
    refine ⟨_, rfl, ?_⟩
    rw [runDefers_finish_regs]
    rcases emitDivisor_done enc2 Op2 t2 _ s2 reg fresh hd with
      ⟨name, -, rfl, -, rfl⟩ | ⟨-, i, c2, expr, hi, he2, rfl, -, rfl⟩
    · rw [runDefers_none_regs _ hs1, hcaller]
    · have hb := h2 { DivState.cur { s.setCur c1 with result := s.result ++ op1 } with
          Registers := (DivState.cur { s.setCur c1 with result := s.result ++ op1 }).Registers.set i true }
        (.Register (gpr i t2.Width))
      rw [he2] at hb
      rw [runDefers_result_regs, runDefers_fresh_regs _ c2 i _ hs1 hi (hb (by simp)), hcaller]

theorem Encode_div_eq (E : Externals) (Op1 Op2 : IRExpression) (ctx : IR_Context)
    (target : Operand) :
    Encode E (.Div Op1 Op2) ctx target =
      if ReturnType E Op1 (withComment E Op1 Op2 ctx) ≠ ReturnType E Op2 (withComment E Op1 Op2 ctx)
      then (withComment E Op1 Op2 ctx, unsupportedTypes E Op1 Op2 ctx)
      else if IsFloat (ReturnType E Op1 (withComment E Op1 Op2 ctx)) then
        E.encodeOperator Op1 Op2 (withComment E Op1 Op2 ctx) target
      else if IsInteger (ReturnType E Op1 (withComment E Op1 Op2 ctx)) then
        encodeInteger (Encode E Op1) (Encode E Op2) Op2
          (ReturnType E Op1 (withComment E Op1 Op2 ctx))
          (ReturnType E Op2 (withComment E Op1 Op2 ctx)) (withComment E Op1 Op2 ctx) target
      else (withComment E Op1 Op2 ctx, unsupportedTypes E Op1 Op2 ctx) := by
  rw [Encode]
  rfl

theorem encodeInteger_balanced (enc1 enc2 : IR_Context → Operand → IR_Context × Outcome)
    (Op2 : IRExpression) (t1 t2 : IRType) (ctx : IR_Context) (target : Operand)
    (h1 : Balanced enc1) (h2 : Balanced enc2)
    (ho : (encodeInteger enc1 enc2 Op2 t1 t2 ctx target).2 ≠ .abort) :
    (encodeInteger enc1 enc2 Op2 t1 t2 ctx target).1.Registers = ctx.Registers := by
  unfold encodeInteger at ho ⊢
  generalize hr : encodeIntegerState enc1 enc2 Op2 t1 t2 ctx target = r at ho ⊢
  obtain ⟨st, o⟩ := r
  cases st with
  | none => rfl
  | some s =>
    obtain ⟨s1, hs1, hregs⟩ :=
      encodeIntegerState_balanced enc1 enc2 Op2 t1 t2 ctx target _ o h1 h2 hr (by simpa using ho)
    cases hs1
    exact hregs

theorem leaf_balanced (types : List (String × IRType)) (e : IRExpression)
    (he : ∀ a b, e ≠ .Div a b) : Balanced (Encode (leafExternals types) e) := by
  intro ctx target _
  cases e with
  | Div a b => exact absurd rfl (he a b)
  | Variable v =>
    simp only [Encode, leafExternals]
    split_ifs <;> rfl
  | Literal t v => rfl
  | Other n => rfl

theorem runDefers_ctx_frame (fresh : Option Register) (s : DivState) :
    (runDefers fresh s).ctx.Instructions = s.ctx.Instructions ∧
    (runDefers fresh s).ctx.VariableMap = s.ctx.VariableMap := by
  obtain ⟨ctx, cc, tdx, tax, res⟩ := s
  cases cc <;> cases tdx <;> cases tax <;> cases fresh <;>
    simp [runDefers, DivState.setCur, DivState.cur, IR_Context.DeallocateRegister]

theorem preserve_sink (t : IRType) (treg : Register) (ctx : IR_Context) (s : DivState)
    (h : preserve t treg ctx = some s) :
    (∃ m, s.ctx.Instructions = ctx.Instructions ++ m) ∧ (s.ctxCopy = none → s.ctx = ctx) := by
  obtain ⟨s1, h1, h2⟩ := preserve_some t treg ctx s h
  rcases preserveRdx_some _ _ _ h1 with ⟨-, rfl⟩ | ⟨-, i, hi, rfl⟩ <;>
    rcases preserveRax_some _ _ _ _ h2 with ⟨-, rfl⟩ | ⟨-, j, hj, rfl⟩ <;>
    simp [IR_Context.AddInstructions]

theorem setCur_sink (s : DivState) (c : IR_Context) (base : List Instruction)
    (hs : ∃ m, s.ctx.Instructions = base ++ m)
    (hc : ∃ m, c.Instructions = s.cur.Instructions ++ m) (r : List Instruction) :
    ∃ m, (DivState.ctx { s.setCur c with result := r }).Instructions = base ++ m := by
  obtain ⟨ctx, cc, tdx, tax, res⟩ := s
  obtain ⟨m0, h0⟩ := hs
  obtain ⟨m1, h1⟩ := hc
  cases cc with
  | none =>
    simp only [DivState.cur] at h1
    simp only at h0
    exact ⟨m0 ++ m1, by simp [DivState.setCur, h1, h0]⟩
  | some c0 => exact ⟨m0, by simpa [DivState.setCur] using h0⟩

theorem encodeIntegerState_sink (enc1 enc2 : IR_Context → Operand → IR_Context × Outcome)
    (Op2 : IRExpression) (t1 t2 : IRType) (ctx : IR_Context) (target : Operand)
    (st : Option DivState) (r : List Instruction)
    (h1 : SinkContract enc1) (h2 : SinkContract enc2)
    (h : encodeIntegerState enc1 enc2 Op2 t1 t2 ctx target = (st, .ok r)) :
    ∃ s m, st = some s ∧ s.ctx.Instructions = ctx.Instructions ++ (m ++ r) := by
  obtain ⟨treg, s, c1, o1, -, hp, he, hcases⟩ :=
    encodeIntegerState_cases enc1 enc2 Op2 t1 t2 ctx target st _ h (by simp)
  obtain ⟨hsink, -⟩ := preserve_sink t1 treg ctx s hp
  rcases hcases with ⟨err, -, hx, -⟩ | ⟨op1, s2, fresh, err, -, -, hx, -⟩ |
    ⟨op1, s2, reg, fresh, rfl, hd, hr, rfl⟩
  · simp at hx
  · simp at hx
  · simp only [Outcome.ok.injEq] at hr
    refine ⟨_, s2.ctx.Instructions.drop ctx.Instructions.length, rfl, ?_⟩
    have hc1 : ∃ m, c1.Instructions = s.cur.Instructions ++ m := by
      have := h1 s.cur (.Register (Rax.ForOperandWidth t1.Width)) op1 (by rw [he])
      rw [he] at this
      obtain ⟨mid, hm⟩ := this
      exact ⟨_, hm⟩
    have hs1 := setCur_sink s c1 ctx.Instructions hsink hc1 (s.result ++ op1)
    have hs2 : ∃ m, s2.ctx.Instructions = ctx.Instructions ++ m := by
      rcases emitDivisor_done enc2 Op2 t2 _ s2 reg fresh hd with
        ⟨name, -, rfl, -, -⟩ | ⟨-, i, c2, expr, hi, he2, rfl, -, -⟩
      · exact hs1
      · have := h2 _ (.Register (gpr i t2.Width)) expr (by rw [he2])
        rw [he2] at this
        obtain ⟨mid, hm⟩ := this
        exact setCur_sink _ c2 ctx.Instructions hs1 ⟨_, hm⟩ _
    obtain ⟨m, hm⟩ := hs2
    rw [(runDefers_ctx_frame _ _).1, finish_ctx, hr, finish_result, hm]
    simp

theorem encodeInteger_sink (enc1 enc2 : IR_Context → Operand → IR_Context × Outcome)
    (Op2 : IRExpression) (t1 t2 : IRType) (ctx : IR_Context) (target : Operand)
    (r : List Instruction) (h1 : SinkContract enc1) (h2 : SinkContract enc2)
    (h : (encodeInteger enc1 enc2 Op2 t1 t2 ctx target).2 = .ok r) :
    ∃ m, (encodeInteger enc1 enc2 Op2 t1 t2 ctx target).1.Instructions =
      ctx.Instructions ++ (m ++ r) := by
  unfold encodeInteger at h ⊢
  generalize hr : encodeIntegerState enc1 enc2 Op2 t1 t2 ctx target = x at h ⊢
  obtain ⟨st, o⟩ := x
  have ho : o = .ok r := by cases st <;> simpa using h
  subst ho
  obtain ⟨s, m, rfl, hm⟩ := encodeIntegerState_sink enc1 enc2 Op2 t1 t2 ctx target st r h1 h2 hr
  exact ⟨m, hm⟩

theorem lookup_rebindAll (c : IR_Context) (idx : Nat) (tmp : Register) (name : String) :
    (c.rebindAll idx tmp).lookup name = rebindTo idx (some tmp) (c.lookup name) := by
  obtain ⟨regs, vm, ins⟩ := c
  simp only [IR_Context.rebindAll, IR_Context.lookup]
  induction vm with
  | nil => simp [rebindTo]
  | cons kv rest ih =>
    obtain ⟨k, op⟩ := kv
    by_cases hk : k = name
    · subst hk
      cases op <;> simp [rebind, rebindTo]
      split_ifs <;> simp
    · have hk2 : (rebind idx tmp (k, op)).1 = k := by
        cases op <;> simp [rebind]
        split_ifs <;> rfl
      simp only [List.map_cons, List.find?_cons, hk2, hk, decide_False]
      exact ih

theorem lookup_of_variableMap (c d : IR_Context) (h : c.VariableMap = d.VariableMap)
    (name : String) : c.lookup name = d.lookup name := by
  simp [IR_Context.lookup, h]

theorem raxBase_variableMap (w : Size) (c : IR_Context) :
    (raxBase w c).VariableMap = c.VariableMap := by
  unfold raxBase
  simp only [IR_Context.Copy]
  split_ifs <;> rfl

theorem preserve_lookup (t : IRType) (treg : Register) (ctx : IR_Context) (s : DivState)
    (h : preserve t treg ctx = some s) (name : String) :
    s.cur.lookup name = rebindTo 0 s.tmpRax (rebindTo 2 s.tmpRdx (ctx.lookup name)) ∧
    (s.tmpRax.isSome = true → ∀ d, s.tmpRdx = some d → d.Register ≠ 0) ∧
    s.ctx.VariableMap = ctx.VariableMap := by
  obtain ⟨s1, h1, h2⟩ := preserve_some t treg ctx s h
  rcases preserveRdx_some _ _ _ h1 with ⟨-, rfl⟩ | ⟨-, i, hi, rfl⟩
  · rcases preserveRax_some _ _ _ _ h2 with ⟨-, rfl⟩ | ⟨-, j, hj, rfl⟩
    · simp [DivState.cur, rebindTo]
    · refine ⟨?_, by simp, by simp [IR_Context.AddInstructions]⟩
      simp only [DivState.cur]
      rw [lookup_rebindAll]
      congr 1
      simp only [rebindTo]
      exact lookup_of_variableMap _ _ (raxBase_variableMap _ _) name
  · have hi2 : firstFree ctx.Registers = some i := hi
    rcases preserveRax_some _ _ _ _ h2 with ⟨-, rfl⟩ | ⟨hb, j, hj, rfl⟩
    · refine ⟨?_, by simp, by simp⟩
      simp only [DivState.cur]
      rw [lookup_rebindAll]
      simp only [rebindTo]
      congr 1
    · refine ⟨?_, ?_, by simp [IR_Context.AddInstructions]⟩
      · simp only [DivState.cur]
        refine (lookup_rebindAll _ _ _ _).trans ?_
        congr 1
        refine (lookup_of_variableMap _ _ (raxBase_variableMap _ _) name).trans ?_
        exact lookup_rebindAll _ _ _ _
      · intro _ d hd
        simp only [Option.some.injEq] at hd
        subst hd
        intro h0
        simp only [gpr] at h0
        subst h0
        have := firstFree_getD _ _ hi2
        simp only [Bool.and_eq_true, IR_Context.reg] at hb
        rw [this] at hb
        simp at hb

theorem setCur_variableMap (s : DivState) (c : IR_Context) (base : List (String × Operand))
    (hs : s.ctx.VariableMap = base) (hc : c.VariableMap = s.cur.VariableMap)
    (r : List Instruction) :
    (DivState.ctx { s.setCur c with result := r }).VariableMap = base ∧
    DivState.cur { s.setCur c with result := r } = c := by
  obtain ⟨ctx, cc, tdx, tax, res⟩ := s
  cases cc with
  | none =>
    simp only [DivState.cur] at hc
    simp only at hs
    simp [DivState.setCur, DivState.cur, hc, hs]
  | some c0 => simpa [DivState.setCur, DivState.cur] using hs

theorem encodeIntegerState_variableMap
    (enc1 enc2 : IR_Context → Operand → IR_Context × Outcome)
    (Op2 : IRExpression) (t1 t2 : IRType) (ctx : IR_Context) (target : Operand)
    (st : Option DivState) (o : Outcome)
    (h1 : KeepsVariableMap enc1) (h2 : KeepsVariableMap enc2)
    (h : encodeIntegerState enc1 enc2 Op2 t1 t2 ctx target = (st, o)) (ho : o ≠ .abort) :
    ∃ s, st = some s ∧ s.ctx.VariableMap = ctx.VariableMap := by
  obtain ⟨treg, s, c1, o1, -, hp, he, hcases⟩ :=
    encodeIntegerState_cases enc1 enc2 Op2 t1 t2 ctx target st o h ho
  obtain ⟨-, -, hvm⟩ := preserve_lookup t1 treg ctx s hp ""
  have hc1 : c1.VariableMap = s.cur.VariableMap := by
    have := h1 s.cur (.Register (Rax.ForOperandWidth t1.Width))
    rwa [he] at this
  have step : ∀ r, (DivState.ctx { s.setCur c1 with result := r }).VariableMap = ctx.VariableMap ∧
      DivState.cur { s.setCur c1 with result := r } = c1 :=
    fun r => setCur_variableMap s c1 _ hvm hc1 r
  rcases hcases with ⟨err, rfl, -, rfl⟩ | ⟨op1, s2, fresh, err, rfl, hd, -, rfl⟩ |
    ⟨op1, s2, reg, fresh, rfl, hd, -, rfl⟩
  · refine ⟨_, rfl, ?_⟩
    rw [(runDefers_ctx_frame _ _).2]
    exact (step s.result).1
  · obtain ⟨i, c2, hi, he2, rfl, rfl⟩ := emitDivisor_fail enc2 Op2 t2 _ s2 err fresh hd
    refine ⟨_, rfl, ?_⟩
    rw [(runDefers_ctx_frame _ _).2]
    have hc2 := h2 { DivState.cur { s.setCur c1 with result := s.result ++ op1 } with
        Registers := (DivState.cur { s.setCur c1 with result := s.result ++ op1 }).Registers.set i true }
      (.Register (gpr i t2.Width))
    rw [he2] at hc2
    exact (setCur_variableMap _ c2 _ (step _).1 hc2
      (DivState.result { s.setCur c1 with result := s.result ++ op1 })).1
  · refine ⟨_, rfl, ?_⟩
    rw [(runDefers_ctx_frame _ _).2, finish_ctx]
    rcases emitDivisor_done enc2 Op2 t2 _ s2 reg fresh hd with
      ⟨name, -, rfl, -, -⟩ | ⟨-, i, c2, expr, hi, he2, rfl, -, -⟩
    · exact (step _).1
    · have hc2 := h2 { DivState.cur { s.setCur c1 with result := s.result ++ op1 } with
          Registers := (DivState.cur { s.setCur c1 with result := s.result ++ op1 }).Registers.set i true }
        (.Register (gpr i t2.Width))
      rw [he2] at hc2
      exact (setCur_variableMap _ c2 _ (step _).1 hc2 _).1

theorem encodeInteger_variableMap (enc1 enc2 : IR_Context → Operand → IR_Context × Outcome)
    (Op2 : IRExpression) (t1 t2 : IRType) (ctx : IR_Context) (target : Operand)
    (h1 : KeepsVariableMap enc1) (h2 : KeepsVariableMap enc2) :
    (encodeInteger enc1 enc2 Op2 t1 t2 ctx target).1.VariableMap = ctx.VariableMap := by
  unfold encodeInteger
  generalize hr : encodeIntegerState enc1 enc2 Op2 t1 t2 ctx target = x
  obtain ⟨st, o⟩ := x
  cases st with
  | none => rfl
  | some s =>
    by_cases ho : o = .abort
    · subst ho
      exfalso
      revert hr
      unfold encodeIntegerState
      cases target <;> simp only [Prod.mk.injEq, false_and, not_false_eq_true, imp_self] <;>
        (try simp)
      rename_i treg
      cases preserve t1 treg ctx with
      | none => simp
      | some s0 =>
        simp only
        generalize enc1 _ _ = r
        obtain ⟨c1, o1⟩ := r
        cases o1 with
        | abort => simp
        | error e => simp
        | ok op1 =>
          simp only
          generalize emitDivisor _ _ _ _ = d
          cases d <;> simp
    · obtain ⟨s1, hs1, hvm⟩ :=
        encodeIntegerState_variableMap enc1 enc2 Op2 t1 t2 ctx target _ o h1 h2 hr ho
      cases hs1
      exact hvm

theorem setCur_tmps (s : DivState) (c : IR_Context) (r : List Instruction) :
    DivState.tmpRdx { s.setCur c with result := r } = s.tmpRdx ∧
    DivState.tmpRax { s.setCur c with result := r } = s.tmpRax ∧
    DivState.cur { s.setCur c with result := r } = c := by
  obtain ⟨ctx, cc, tdx, tax, res⟩ := s
  cases cc <;> simp [DivState.setCur, DivState.cur]

theorem preserve_result_noDivide (t : IRType) (treg : Register) (ctx : IR_Context)
    (s : DivState) (h : preserve t treg ctx = some s) : s.result.filter isDivide = [] := by
  obtain ⟨s1, h1, h2⟩ := preserve_some t treg ctx s h
  rcases preserveRdx_some _ _ _ h1 with ⟨-, rfl⟩ | ⟨-, i, hi, rfl⟩ <;>
    rcases preserveRax_some _ _ _ _ h2 with ⟨-, rfl⟩ | ⟨-, j, hj, rfl⟩ <;>
    simp [MOV, isDivide]

theorem highHalf_not_divide (t : IRType) : isDivide (highHalf t) = false := by
  cases t <;> simp [highHalf, IsSignedInteger, isDivide, CQO, CDQ, CWD, CBW, XOR]

theorem divide_isDivide (t : IRType) (reg : Operand) : isDivide (divide t reg) = true := by
  unfold divide
  split_ifs <;> simp [isDivide, IDIV1, DIV]

theorem tail_noDivide (t : IRType) (target : Operand) (a d : Option Register) :
    (quotientMove t target ++ restoreMoves a d).filter isDivide = [] := by
  unfold quotientMove restoreMoves
  cases a <;> cases d <;> split_ifs <;> simp [MOV, isDivide]

/-- The shape of every successful run of the integer recipe. -/
theorem encodeInteger_ok_shape (enc1 enc2 : IR_Context → Operand → IR_Context × Outcome)
    (Op2 : IRExpression) (t : IRType) (ctx : IR_Context) (target : Operand)
    (r : List Instruction) (h : (encodeInteger enc1 enc2 Op2 t t ctx target).2 = .ok r) :
    ∃ treg s c1 op1 op2seq reg,
      target = .Register treg ∧ preserve t treg ctx = some s ∧
      enc1 s.cur (.Register (Rax.ForOperandWidth t.Width)) = (c1, .ok op1) ∧
      ((∃ name, Op2 = .Variable name ∧ op2seq = [] ∧ reg = c1.lookup name) ∨
       ((∀ name, Op2 ≠ .Variable name) ∧ ∃ i c2, firstFree c1.Registers = some i ∧
          reg = .Register (gpr i t.Width) ∧
          enc2 { c1 with Registers := c1.Registers.set i true } reg = (c2, .ok op2seq))) ∧
      r = s.result ++ op1 ++ op2seq ++
        divTail t target reg s.tmpRax s.tmpRdx := by
  unfold encodeInteger at h
  generalize hr : encodeIntegerState enc1 enc2 Op2 t t ctx target = x at h
  obtain ⟨st, o⟩ := x
  have ho : o = .ok r := by cases st <;> simpa using h
  subst ho
  obtain ⟨treg, s, c1, o1, htarget, hp, he, hcases⟩ :=
    encodeIntegerState_cases enc1 enc2 Op2 t t ctx target st _ hr (by simp)
  rcases hcases with ⟨err, -, hx, -⟩ | ⟨op1, s2, fresh, err, -, -, hx, -⟩ |
    ⟨op1, s2, reg, fresh, rfl, hd, hres, -⟩
  · simp at hx
  · simp at hx
  · simp only [Outcome.ok.injEq] at hres
    obtain ⟨hdx, hax, hcur⟩ := setCur_tmps s c1 (s.result ++ op1)
    rcases emitDivisor_done enc2 Op2 t _ s2 reg fresh hd with
      ⟨name, hname, rfl, hreg, -⟩ | ⟨hnv, i, c2, expr, hi, he2, rfl, hreg, -⟩
    · refine ⟨treg, s, c1, op1, [], reg, htarget, hp, he, Or.inl ⟨name, hname, rfl, ?_⟩, ?_⟩
      · rw [hreg, hcur]
      · rw [hres, finish_result, hdx, hax]
        simp
    · rw [hcur] at hi he2
      refine ⟨treg, s, c1, op1, expr, reg, htarget, hp, he,
        Or.inr ⟨hnv, i, c2, hi, hreg, ?_⟩, ?_⟩
      · rw [hreg]; exact he2
      · obtain ⟨hdx2, hax2, -⟩ := setCur_tmps
          { s.setCur c1 with result := s.result ++ op1 } c2 (s.result ++ op1 ++ expr)
        rw [hres, finish_result]
        simp only at hdx2 hax2 ⊢
        rw [hdx2, hax2, hdx, hax]

theorem leaf_sinkContract (types : List (String × IRType)) (e : IRExpression)
    (he : ∀ a b, e ≠ .Div a b) : SinkContract (Encode (leafExternals types) e) := by
  intro ctx target r h
  cases e with
  | Div a b => exact absurd rfl (he a b)
  | Variable v =>
    simp only [Encode, leafExternals] at h ⊢
    split_ifs at h ⊢ <;> simp at h <;> subst h
    · exact ⟨[], by simp⟩
    · exact ⟨[], by simp [IR_Context.AddInstruction]⟩
  | Literal t v =>
    simp only [Encode, leafExternals, Outcome.ok.injEq] at h ⊢
    subst h
    exact ⟨[], by simp [IR_Context.AddInstruction]⟩
  | Other n => simp [Encode, leafExternals] at h

theorem leaf_keepsVariableMap (types : List (String × IRType)) (e : IRExpression)
    (he : ∀ a b, e ≠ .Div a b) : KeepsVariableMap (Encode (leafExternals types) e) := by
  intro ctx target
  cases e with
  | Div a b => exact absurd rfl (he a b)
  | Variable v =>
    simp only [Encode, leafExternals]
    split_ifs <;> rfl
  | Literal t v => rfl
  | Other n => rfl

theorem SSA_Transform_div_eq {σ : Type} (X : SSAExternals σ) (x y : IRExpression) (ctx : σ) :
    SSA_Transform X (.Div x y) ctx =
      ((( operandRewrites X x ctx).1.1 ++
          (operandRewrites X y (operandRewrites X x ctx).2).1.1,
        .Div (operandRewrites X x ctx).1.2
          (operandRewrites X y (operandRewrites X x ctx).2).1.2),
       (operandRewrites X y (operandRewrites X x ctx).2).2) := by
  rw [SSA_Transform]
  unfold operandRewrites
  by_cases h1 : IsLiteralOrVariable x = true <;> by_cases h2 : IsLiteralOrVariable y = true <;>
    simp [h1, h2]

theorem firstFree_lt (l : List Bool) (i : Nat) (h : firstFree l = some i) : i < l.length := by
  induction l generalizing i with
  | nil => simp [firstFree] at h
  | cons b rs ih =>
    cases b with
    | false =>
      simp [firstFree] at h
      subst h
      simp
    | true =>
      simp only [firstFree, Option.map_eq_some'] at h
      obtain ⟨j, hj, rfl⟩ := h
      simpa using ih j hj

theorem firstFree_ne_of_set (l : List Bool) (i j : Nat) (hi : i < l.length)
    (hj : firstFree (l.set i true) = some j) : j ≠ i := by
  intro h
  subst h
  have := firstFree_getD _ _ hj
  simp [List.getD, hi] at this

theorem firstFree_ne_of_set_set (l : List Bool) (i j k : Nat) (hi : i < l.length)
    (hj : firstFree ((l.set i true).set k true) = some j) : j ≠ i := by
  intro h
  subst h
  have := firstFree_getD _ _ hj
  by_cases hk : k = j
  · subst hk
    simp [List.getD, hi] at this
  · simp [List.getD, hi, List.getElem?_set, hk] at this

theorem raxBase_registers (w : Size) (c : IR_Context) :
    (raxBase w c).Registers = c.Registers ∨ (raxBase w c).Registers = c.Registers.set 2 true := by
  unfold raxBase
  simp only [IR_Context.Copy]
  split_ifs
  · right; rfl
  · left; rfl

theorem preserve_shape (t : IRType) (treg : Register) (ctx : IR_Context) (s : DivState)
    (h : preserve t treg ctx = some s) :
    s.result = preserveMoves s.tmpRdx s.tmpRax ∧
    s.tmpRdx.isSome = ((t.Width != .BYTE) && ctx.reg 2) ∧
    s.tmpRax.isSome = ((treg.Register != 0) && ctx.reg 0) ∧
    (∀ d a, s.tmpRdx = some d → s.tmpRax = some a → d.Register ≠ a.Register) := by
  obtain ⟨s1, h1, h2⟩ := preserve_some t treg ctx s h
  rcases preserveRdx_some _ _ _ h1 with ⟨hb1, rfl⟩ | ⟨hb1, i, hi, rfl⟩
  · rcases preserveRax_some _ _ _ _ h2 with ⟨hb2, rfl⟩ | ⟨hb2, j, hj, rfl⟩ <;>
      simp [preserveMoves, hb1, hb2]
  · have hi2 : firstFree ctx.Registers = some i := hi
    have hlt := firstFree_lt _ _ hi2
    rcases preserveRax_some _ _ _ _ h2 with ⟨hb2, rfl⟩ | ⟨hb2, j, hj, rfl⟩
    · simp [preserveMoves, hb1, hb2]
    · refine ⟨by simp [preserveMoves], by simp [hb1], by simp [hb2], ?_⟩
      intro d a hd ha
      simp only [Option.some.injEq] at hd ha
      subst hd ha
      simp only [gpr]
      intro hij
      rcases raxBase_registers t.Width
        (DivState.cur
          { ctx := { ctx with
                      Registers := ctx.Registers.set i true
                      Instructions := ctx.Instructions ++
                        ([] ++ [MOV (.Register Rdx) (.Register (gpr i .QUADWORD))]) }
            ctxCopy := some (IR_Context.rebindAll
                { ctx with
                  Registers := ctx.Registers.set i true
                  Instructions := ctx.Instructions ++
                    ([] ++ [MOV (.Register Rdx) (.Register (gpr i .QUADWORD))]) }
                2 (gpr i .QUADWORD))
            tmpRdx := some (gpr i .QUADWORD)
            tmpRax := none
            result := [] ++ [MOV (.Register Rdx) (.Register (gpr i .QUADWORD))] }) with hr | hr
      · rw [hr] at hj
        exact firstFree_ne_of_set _ _ _ hlt hj hij.symm
      · rw [hr] at hj
        exact firstFree_ne_of_set_set _ _ _ _ hlt hj hij.symm

theorem Encode_div_ok_encodeInteger (E : Externals) (Op1 Op2 : IRExpression)
    (ctx : IR_Context) (target : Operand) (r : List Instruction)
    (hi : IsInteger (ReturnType E Op1 (withComment E Op1 Op2 ctx)) = true)
    (h : (Encode E (.Div Op1 Op2) ctx target).2 = .ok r) :
    (encodeInteger (Encode E Op1) (Encode E Op2) Op2
      (ReturnType E Op1 (withComment E Op1 Op2 ctx))
      (ReturnType E Op1 (withComment E Op1 Op2 ctx)) (withComment E Op1 Op2 ctx) target).2 =
      .ok r := by
  rw [Encode_div_eq] at h
  have hfl : IsFloat (ReturnType E Op1 (withComment E Op1 Op2 ctx)) = false := by
    revert hi
    cases ReturnType E Op1 (withComment E Op1 Op2 ctx) <;> simp [IsFloat, IsInteger]
  by_cases ht : ReturnType E Op1 (withComment E Op1 Op2 ctx) =
      ReturnType E Op2 (withComment E Op1 Op2 ctx)
  · rw [if_neg (by simpa using ht)] at h
    simp only [hfl, hi, if_true, Bool.false_eq_true, if_false] at h
    rw [← ht] at h
    exact h
  · rw [if_pos ht] at h
    simp [unsupportedTypes] at h

/-- The sequence of every successful integer lowering, with the scratches that
the preservation steps set. -/
theorem Encode_div_integer_shape (E : Externals) (Op1 Op2 : IRExpression)
    (ctx : IR_Context) (target : Operand) (r : List Instruction)
    (hi : IsInteger (ReturnType E Op1 (withComment E Op1 Op2 ctx)) = true)
    (h : (Encode E (.Div Op1 Op2) ctx target).2 = .ok r) :
    ∃ treg d a op1 op2seq reg,
      target = .Register treg ∧
      d.isSome = (((ReturnType E Op1 (withComment E Op1 Op2 ctx)).Width != .BYTE) &&
        ctx.reg 2) ∧
      a.isSome = ((treg.Register != 0) && ctx.reg 0) ∧
      (∀ x y, d = some x → a = some y → x.Register ≠ y.Register) ∧
      (∃ c0 c1, Encode E Op1 c0
        (.Register (Rax.ForOperandWidth (ReturnType E Op1 (withComment E Op1 Op2 ctx)).Width)) =
        (c1, .ok op1)) ∧
      ((∃ name, Op2 = .Variable name ∧ op2seq = []) ∨
       (∃ c fr c2, Encode E Op2 c (.Register fr) = (c2, .ok op2seq))) ∧
      r = preserveMoves d a ++ op1 ++ op2seq ++
        highHalf (ReturnType E Op1 (withComment E Op1 Op2 ctx)) ::
        divide (ReturnType E Op1 (withComment E Op1 Op2 ctx)) reg ::
        (quotientMove (ReturnType E Op1 (withComment E Op1 Op2 ctx)) target ++
          restoreMoves a d) := by
  have h2 := Encode_div_ok_encodeInteger E Op1 Op2 ctx target r hi h
  obtain ⟨treg, s, c1, op1, op2seq, reg, htarget, hp, he, hdiv, hr⟩ :=
    encodeInteger_ok_shape _ _ _ _ _ _ r h2
  obtain ⟨hres, hd, ha, hne⟩ := preserve_shape _ _ _ _ hp
  refine ⟨treg, s.tmpRdx, s.tmpRax, op1, op2seq, reg, htarget, hd, ha, hne, ⟨_, _, he⟩, ?_, ?_⟩
  · rcases hdiv with ⟨name, hn, ho, -⟩ | ⟨-, i, c2, -, hreg, he2⟩
    · exact Or.inl ⟨name, hn, ho⟩
    · rw [hreg] at he2
      exact Or.inr ⟨_, _, _, he2⟩
  · rw [hr, hres]
    rfl

theorem wellScoped_mono (l : List SSA_Rewrite) (av av2 : List String)
    (h : ∀ v ∈ av, v ∈ av2) (hs : wellScoped av l = true) : wellScoped av2 l = true := by
  induction l generalizing av av2 with
  | nil => rfl
  | cons r rs ih =>
    simp only [wellScoped, Bool.and_eq_true, List.all_eq_true, decide_eq_true_eq] at hs ⊢
    refine ⟨fun v hv => h v (hs.1 v hv), ih _ _ ?_ hs.2⟩
    intro v hv
    rcases List.mem_cons.1 hv with rfl | hv
    · exact List.mem_cons_self _ _
    · exact List.mem_cons_of_mem _ (h v hv)

theorem wellScoped_append (l1 l2 : List SSA_Rewrite) (av : List String)
    (h1 : wellScoped av l1 = true) (h2 : wellScoped (boundNames l1 ++ av) l2 = true) :
    wellScoped av (l1 ++ l2) = true := by
  induction l1 generalizing av with
  | nil => simpa [boundNames] using h2
  | cons r rs ih =>
    simp only [wellScoped, Bool.and_eq_true, List.all_eq_true, decide_eq_true_eq,
      List.cons_append] at h1 ⊢
    refine ⟨h1.1, ih _ h1.2 (wellScoped_mono _ _ _ ?_ h2)⟩
    intro v hv
    simp only [boundNames, List.map_cons, List.cons_append, List.mem_cons,
      List.mem_append] at hv ⊢
    tauto

theorem runRewrites_append (l1 l2 : List SSA_Rewrite) (env : String → Int) :
    runRewrites env (l1 ++ l2) =
      match runRewrites env l1 with
      | none => none
      | some env1 => runRewrites env1 l2 := by
  induction l1 generalizing env with
  | nil => rfl
  | cons r rs ih =>
    simp only [List.cons_append, runRewrites]
    cases eval env r.Expr with
    | none => rfl
    | some x => exact ih _

theorem eval_congr (e : IRExpression) (env1 env2 : String → Int)
    (h : ∀ v ∈ vars e, env1 v = env2 v) : eval env1 e = eval env2 e := by
  induction e with
  | Variable v => simp [eval, h v (by simp [vars])]
  | Literal t n => rfl
  | Other n => rfl
  | Div a b iha ihb =>
    simp only [eval]
    rw [iha (fun v hv => h v (by simp [vars, hv])), ihb (fun v hv => h v (by simp [vars, hv]))]

theorem FlattenSpec_leaf (N : Nat → String) (e : IRExpression) (k : Nat) :
    FlattenSpec N e k 0 [] e := by
  refine ⟨by simp [boundNames], fun v hv => Or.inl hv, rfl, fun env => ⟨?_, ?_⟩⟩
  · intro h
    simp [runRewrites] at h
  · intro env1 h
    simp only [runRewrites, Option.some.injEq] at h
    subst h
    exact ⟨rfl, fun _ _ => rfl⟩

theorem FlattenSpec_bind (N : Nat → String) (e : IRExpression) (k n : Nat)
    (rw : List SSA_Rewrite) (root : IRExpression) (h : FlattenSpec N e k n rw root) :
    FlattenSpec N e k (n + 1) (rw ++ [NewSSA_Rewrite (N (k + n)) root])
      (.Variable (N (k + n))) := by
  obtain ⟨hb, hv, hs, hsem⟩ := h
  refine ⟨?_, ?_, ?_, fun env => ⟨?_, ?_⟩⟩
  · simp only [boundNames, List.map_append, List.map_cons, List.map_nil, NewSSA_Rewrite] at hb ⊢
    rw [hb, List.range'_concat]
    simp
  · intro v hv2
    right
    simp only [vars, List.mem_singleton] at hv2
    subst hv2
    simp [boundNames, NewSSA_Rewrite]
  · refine wellScoped_append _ _ _ hs ?_
    simp only [wellScoped, NewSSA_Rewrite, Bool.and_true, List.all_eq_true, decide_eq_true_eq,
      List.mem_append]
    intro v hv2
    exact (hv v hv2).symm
  · intro hnone
    rw [runRewrites_append] at hnone
    cases hr : runRewrites env rw with
    | none => exact (hsem env).1 hr
    | some env1 =>
      rw [hr] at hnone
      simp only [runRewrites, NewSSA_Rewrite] at hnone
      have := ((hsem env).2 env1 hr).1
      cases he : eval env1 root with
      | none => rw [← this, he]
      | some x => simp [he] at hnone
  · intro env2 hsome
    rw [runRewrites_append] at hsome
    cases hr : runRewrites env rw with
    | none => simp [hr] at hsome
    | some env1 =>
      rw [hr] at hsome
      simp only [runRewrites, NewSSA_Rewrite] at hsome
      obtain ⟨hval, hframe⟩ := (hsem env).2 env1 hr
      cases he : eval env1 root with
      | none => simp [he] at hsome
      | some x =>
        simp only [he, Option.some.injEq] at hsome
        subst hsome
        refine ⟨?_, ?_⟩
        · rw [← hval, he]
          simp [eval, bindVar]
        · intro w hw
          simp only [boundNames, List.map_append, List.map_cons, List.map_nil, NewSSA_Rewrite,
            List.mem_append, List.mem_singleton, not_or] at hw
          simp only [bindVar, hw.2, if_false]
          exact hframe w hw.1

theorem FlattenSpec_div (N : Nat → String) (a b : IRExpression) (k na nb : Nat)
    (rwa rwb : List SSA_Rewrite) (opa opb : IRExpression)
    (hinj : ∀ i j, N i = N j → i = j)
    (hfa : ∀ i, N i ∉ vars a) (hfb : ∀ i, N i ∉ vars b)
    (ha : FlattenSpec N a k na rwa opa) (hb : FlattenSpec N b (k + na) nb rwb opb) :
    FlattenSpec N (.Div a b) k (na + nb) (rwa ++ rwb) (.Div opa opb) := by
  obtain ⟨hba, hva, hsa, hsema⟩ := ha
  obtain ⟨hbb, hvb, hsb, hsemb⟩ := hb
  have hmema : ∀ w, w ∈ boundNames rwa → ∃ i, k ≤ i ∧ i < k + na ∧ w = N i := by
    intro w hw
    rw [hba] at hw
    simp only [List.mem_map, List.mem_range'_1] at hw
    obtain ⟨i, ⟨h1, h2⟩, rfl⟩ := hw
    exact ⟨i, h1, h2, rfl⟩
  have hmemb : ∀ w, w ∈ boundNames rwb → ∃ i, k + na ≤ i ∧ i < k + na + nb ∧ w = N i := by
    intro w hw
    rw [hbb] at hw
    simp only [List.mem_map, List.mem_range'_1] at hw
    obtain ⟨i, ⟨h1, h2⟩, rfl⟩ := hw
    exact ⟨i, h1, h2, rfl⟩
  -- variables of b are not bound by the rewrites of a
  have hb_not_a : ∀ v ∈ vars b, v ∉ boundNames rwa := by
    intro v hv hm
    obtain ⟨i, -, -, rfl⟩ := hmema v hm
    exact hfb i hv
  -- variables of the operand of a are not bound by the rewrites of b
  have hopa_not_b : ∀ v ∈ vars opa, v ∉ boundNames rwb := by
    intro v hv hm
    obtain ⟨j, hj1, -, rfl⟩ := hmemb _ hm
    rcases hva _ hv with h1 | h1
    · exact hfa j h1
    · obtain ⟨i, -, hi2, hij⟩ := hmema _ h1
      have := hinj _ _ hij
      omega
  refine ⟨?_, ?_, ?_, fun env => ⟨?_, ?_⟩⟩
  · simp only [boundNames, List.map_append] at hba hbb ⊢
    rw [hba, hbb, ← List.map_append, List.range'_append_1, Nat.add_comm nb na]
  · intro v hv
    simp only [vars, List.mem_append] at hv ⊢
    simp only [boundNames, List.map_append, List.mem_append]
    rcases hv with hv | hv
    · rcases hva v hv with h | h
      · exact Or.inl (Or.inl h)
      · exact Or.inr (Or.inl h)
    · rcases hvb v hv with h | h
      · exact Or.inl (Or.inr h)
      · exact Or.inr (Or.inr h)
  · refine wellScoped_append _ _ _ (wellScoped_mono _ _ _ ?_ hsa) (wellScoped_mono _ _ _ ?_ hsb)
    · intro v hv
      simp [vars, hv]
    · intro v hv
      simp [vars, hv]
  · intro hnone
    rw [runRewrites_append] at hnone
    cases hra : runRewrites env rwa with
    | none =>
      have := (hsema env).1 hra
      simp [eval, this]
    | some enva =>
      rw [hra] at hnone
      have hbn := (hsemb enva).1 hnone
      obtain ⟨-, hframea⟩ := (hsema env).2 enva hra
      have : eval enva b = eval env b :=
        eval_congr b enva env (fun v hv => hframea v (hb_not_a v hv))
      rw [this] at hbn
      simp only [eval, hbn]
      cases eval env a <;> rfl
  · intro envb hsome
    rw [runRewrites_append] at hsome
    cases hra : runRewrites env rwa with
    | none => simp [hra] at hsome
    | some enva =>
      rw [hra] at hsome
      obtain ⟨hvala, hframea⟩ := (hsema env).2 enva hra
      obtain ⟨hvalb, hframeb⟩ := (hsemb enva).2 envb hsome
      have e1 : eval enva b = eval env b :=
        eval_congr b enva env (fun v hv => hframea v (hb_not_a v hv))
      have e2 : eval envb opa = eval enva opa :=
        eval_congr opa envb enva (fun v hv => hframeb v (hopa_not_b v hv))
      refine ⟨?_, ?_⟩
      · simp only [eval]
        rw [e2, hvala, hvalb, e1]
      · intro w hw
        simp only [boundNames, List.map_append, List.mem_append, not_or] at hw
        rw [hframeb w hw.2, hframea w hw.1]

theorem SSA_Transform_div_of_operands {σ : Type} (X : SSAExternals σ) (ctx0 : σ)
    (a b : IRExpression) (k : Nat)
    (hinj : ∀ i j, genName X ctx0 i = genName X ctx0 j → i = j)
    (hfa : ∀ i, genName X ctx0 i ∉ vars a) (hfb : ∀ i, genName X ctx0 i ∉ vars b)
    (ha : (operandRewrites X a (genState X ctx0 k)).2 = genState X ctx0 (k + opCount a) ∧
      FlattenSpec (genName X ctx0) a k (opCount a)
        (operandRewrites X a (genState X ctx0 k)).1.1
        (operandRewrites X a (genState X ctx0 k)).1.2)
    (hb : (operandRewrites X b (genState X ctx0 (k + opCount a))).2 =
        genState X ctx0 (k + opCount a + opCount b) ∧
      FlattenSpec (genName X ctx0) b (k + opCount a) (opCount b)
        (operandRewrites X b (genState X ctx0 (k + opCount a))).1.1
        (operandRewrites X b (genState X ctx0 (k + opCount a))).1.2) :
    (SSA_Transform X (.Div a b) (genState X ctx0 k)).2 =
        genState X ctx0 (k + (opCount a + opCount b)) ∧
      FlattenSpec (genName X ctx0) (.Div a b) k (opCount a + opCount b)
        (SSA_Transform X (.Div a b) (genState X ctx0 k)).1.1
        (SSA_Transform X (.Div a b) (genState X ctx0 k)).1.2 := by
  rw [SSA_Transform_div_eq]
  simp only
  rw [ha.1]
  refine ⟨?_, ?_⟩
  · rw [hb.1, Nat.add_assoc]
  · exact FlattenSpec_div _ a b k _ _ _ _ _ _ hinj hfa hfb ha.2 hb.2

theorem operandRewrites_spec {σ : Type} (X : SSAExternals σ) (ctx0 : σ) (e : IRExpression)
    (htree : isDivTree e = true)
    (hinj : ∀ i j, genName X ctx0 i = genName X ctx0 j → i = j)
    (hf : ∀ i, genName X ctx0 i ∉ vars e) (k : Nat) :
    (operandRewrites X e (genState X ctx0 k)).2 = genState X ctx0 (k + opCount e) ∧
      FlattenSpec (genName X ctx0) e k (opCount e)
        (operandRewrites X e (genState X ctx0 k)).1.1
        (operandRewrites X e (genState X ctx0 k)).1.2 := by
  induction e generalizing k with
  | Variable v =>
    simp only [operandRewrites, IsLiteralOrVariable, if_true, opCount, Nat.add_zero, true_and]
    exact FlattenSpec_leaf _ _ _
  | Literal t n =>
    simp only [operandRewrites, IsLiteralOrVariable, if_true, opCount, Nat.add_zero, true_and]
    exact FlattenSpec_leaf _ _ _
  | Other n => simp [isDivTree] at htree
  | Div a b iha ihb =>
    simp only [isDivTree, Bool.and_eq_true] at htree
    have hfa : ∀ i, genName X ctx0 i ∉ vars a := fun i hm => hf i (by simp [vars, hm])
    have hfb : ∀ i, genName X ctx0 i ∉ vars b := fun i hm => hf i (by simp [vars, hm])
    obtain ⟨hst, hspec⟩ := SSA_Transform_div_of_operands X ctx0 a b k hinj hfa hfb
      (iha htree.1 hfa k) (ihb htree.2 hfb (k + opCount a))
    have hbind := FlattenSpec_bind _ _ _ _ _ _ hspec
    simp only [operandRewrites, IsLiteralOrVariable, Bool.false_eq_true, if_false, opCount]
    rw [hst]
    refine ⟨?_, ?_⟩
    · simp only [genState, Nat.add_assoc]
      rfl
    · exact hbind

theorem genState_tickNames (n : Nat) : genState tickNames 0 n = n := by
  induction n with
  | zero => rfl
  | succ m ih =>
    show (tickNames.GenerateVariable (genState tickNames 0 m)).2 = m + 1
    rw [ih]
    rfl

theorem genName_tickNames (n : Nat) :
    genName tickNames 0 n = String.mk (List.replicate (n + 1) 't') := by
  unfold genName
  rw [genState_tickNames]
  rfl

/-! ## The claims -/

/-- Claim C1 fails on the code when the target is rDX and rDX is occupied: for
a / b over uint64 variables in rSI and rDI, with rAX and rDX occupied and target
rDX, the returned sequence moves the quotient from rAX to rDX and then ends with
the restore of rDX from its scratch rCX, which overwrites the target. -/
theorem Encode_div_target_rdx_is_overwritten :
    (Encode leaves64 aDivB ctxRdxTarget (.Register Rdx)).2 =
      .ok [MOV (.Register Rdx) (.Register Rcx), MOV (.Register Rax) (.Register Rbx),
        MOV (.Register Rsi) (.Register Rax), XOR (.Register Rdx) (.Register Rdx),
        DIV (.Register Rdi), MOV (.Register Rax) (.Register Rdx),
        MOV (.Register Rbx) (.Register Rax), MOV (.Register Rcx) (.Register Rdx)] := by
  decide

/-- Claim C2 fails on the code when rDX is occupied and rAX is free: for a / b
over uint32 variables in ESI and EDI, with rDX occupied, rAX free and target
ECX, the scratch that receives rDX is rAX itself; the dividend move and the
divide then write rAX, and the restore at the end copies the quotient, not the
saved value, into rDX. -/
theorem Encode_div_rdx_scratch_is_clobbered :
    (Encode leaves32 aDivB ctxRaxFree (.Register Ecx)).2 =
      .ok [MOV (.Register Rdx) (.Register Rax), MOV (.Register Esi) (.Register Eax),
        XOR (.Register Edx) (.Register Edx), DIV (.Register Edi),
        MOV (.Register Eax) (.Register Ecx), MOV (.Register Rax) (.Register Rdx)] := by
  decide

/-- Claim C3: when Encode of an IR_Div returns (with a sequence or with an
error), the register occupancy of the caller's context is what it was on
entry, for every context and every target, provided the Encode calls of the two
operands and of the float operator are themselves allocation-balanced. -/
theorem Encode_div_allocation_balanced (E : Externals) (Op1 Op2 : IRExpression)
    (ctx : IR_Context) (target : Operand)
    (h1 : Balanced (Encode E Op1)) (h2 : Balanced (Encode E Op2))
    (hf : Balanced (E.encodeOperator Op1 Op2))
    (hret : (Encode E (.Div Op1 Op2) ctx target).2 ≠ .abort) :
    (Encode E (.Div Op1 Op2) ctx target).1.Registers = ctx.Registers := by
  rw [Encode_div_eq] at hret ⊢
  split_ifs at hret ⊢ with ht hfl hi
  · rfl
  · exact hf _ _ hret
  · exact encodeInteger_balanced _ _ _ _ _ _ _ h1 h2 hret
  · rfl

/-- The lowering of a / 5 into EBX with rAX and rDX occupied, which allocates
both scratches and a divisor register, leaves the occupancy as it was. -/
theorem Encode_div_allocation_balanced_witness :
    Balanced (Encode leaves32 (.Variable "a")) ∧
    Balanced (Encode leaves32 (.Literal TUint32 5)) ∧
    Balanced (leaves32.encodeOperator (.Variable "a") (.Literal TUint32 5)) ∧
    (Encode leaves32 aDiv5 ⟨occupied [0, 2, 3, 6], [("a", .Register Esi)], []⟩
      (.Register (gpr 3 .DOUBLE))).2 ≠ .abort ∧
    (Encode leaves32 aDiv5 ⟨occupied [0, 2, 3, 6], [("a", .Register Esi)], []⟩
      (.Register (gpr 3 .DOUBLE))).1.Registers = occupied [0, 2, 3, 6] :=
  ⟨leaf_balanced _ _ (by simp), leaf_balanced _ _ (by simp), fun _ _ _ => rfl, by decide,
    Encode_div_allocation_balanced leaves32 (.Variable "a") (.Literal TUint32 5)
      ⟨occupied [0, 2, 3, 6], [("a", .Register Esi)], []⟩ (.Register (gpr 3 .DOUBLE))
      (leaf_balanced _ _ (by simp)) (leaf_balanced _ _ (by simp)) (fun _ _ _ => rfl)
      (by decide)⟩

/-- Claim C4 fails on the code: for a / b over uint32 variables in ESI and EDI,
with rAX and rDX occupied and target EBX, the call returns eight instructions
and appends twelve entries to the caller's sink: the operator comment of line
32, then the preserve move of rDX three times and the preserve move of rAX
twice, because lines 58, 78 and 134 add the whole accumulated result again
where lines 141, 146, 153 and 159 add the one new instruction. -/
theorem Encode_div_sink_repeats_result :
    (Encode leaves32 aDivB ctxBothLive (.Register Ebx)).2 =
      .ok [MOV (.Register Rdx) (.Register Rcx), MOV (.Register Rax) (.Register Rsp),
        MOV (.Register Esi) (.Register Eax), XOR (.Register Edx) (.Register Edx),
        DIV (.Register Edi), MOV (.Register Eax) (.Register Ebx),
        MOV (.Register Rsp) (.Register Rax), MOV (.Register Rcx) (.Register Rdx)] ∧
    (Encode leaves32 aDivB ctxBothLive (.Register Ebx)).1.Instructions =
      ctxBothLive.Instructions ++
        [.Comment "operator a / b",
          MOV (.Register Rdx) (.Register Rcx),
          MOV (.Register Rdx) (.Register Rcx), MOV (.Register Rax) (.Register Rsp),
          MOV (.Register Rdx) (.Register Rcx), MOV (.Register Rax) (.Register Rsp),
          MOV (.Register Esi) (.Register Eax), XOR (.Register Edx) (.Register Edx),
          DIV (.Register Edi), MOV (.Register Eax) (.Register Ebx),
          MOV (.Register Rsp) (.Register Rax), MOV (.Register Rcx) (.Register Rdx)] := by
  decide

/-- The part of the sink contract that the code keeps: for every successful
call of Encode of an IR_Div, what the call appended to the caller's sink starts
with the operator comment of line 32 and ends with the returned instruction
sequence, provided that what the Encode calls of the operands and of the float
operator append ends with what they return. -/
theorem Encode_div_sink_suffix (E : Externals) (Op1 Op2 : IRExpression)
    (ctx : IR_Context) (target : Operand) (r : List Instruction)
    (h1 : SinkContract (Encode E Op1)) (h2 : SinkContract (Encode E Op2))
    (hf : SinkContract (E.encodeOperator Op1 Op2))
    (h : (Encode E (.Div Op1 Op2) ctx target).2 = .ok r) :
    ∃ mid, (Encode E (.Div Op1 Op2) ctx target).1.Instructions =
      ctx.Instructions ++
        (Instruction.Comment ("operator " ++ IRExpression.String E (.Div Op1 Op2)) :: mid ++ r) := by
  rw [Encode_div_eq] at h ⊢
  split_ifs at h ⊢ with ht hfl hi
  · simp [unsupportedTypes] at h
  · obtain ⟨m, hm⟩ := hf _ _ r h
    exact ⟨m, by rw [hm]; simp [withComment, IR_Context.AddInstruction]⟩
  · obtain ⟨m, hm⟩ := encodeInteger_sink _ _ _ _ _ _ _ r h1 h2 h
    exact ⟨m, by rw [hm]; simp [withComment, IR_Context.AddInstruction]⟩
  · simp [unsupportedTypes] at h


/-- Claim C5: for every IR_Div node and every SSA context, the expression that
SSA_Transform returns is an IR_Div whose left and right operands both satisfy
IsLiteralOrVariable. -/
theorem SSA_Transform_div_operands_are_leaves {σ : Type} (X : SSAExternals σ)
    (Op1 Op2 : IRExpression) (ctx : σ) :
    ∃ l r, (SSA_Transform X (.Div Op1 Op2) ctx).1.2 = .Div l r ∧
      IsLiteralOrVariable l = true ∧ IsLiteralOrVariable r = true := by
  rw [SSA_Transform_div_eq]
  refine ⟨_, _, rfl, ?_, ?_⟩
  · by_cases h : IsLiteralOrVariable Op1 = true
    · simp [operandRewrites, h]
    · simp only [operandRewrites, h]
      rfl
  · by_cases h : IsLiteralOrVariable Op2 = true
    · simp [operandRewrites, h]
    · simp only [operandRewrites, h]
      rfl

/-- Claim C6: SSA_Transform of an IR_Div with operands x and y returns the
rewrites R(x) ++ R(y) and the root rebuilt from the operands that R leaves in
place of x and y, where R(e) (operandRewrites) is empty for a literal or
variable, which stays, and otherwise is the rewrites of the transform of e
followed by one binding of a fresh variable to the transformed e; x is
transformed and its variable generated before y is transformed (the SSA context
that R(y) starts from is the one R(x) ends with); with two leaf operands the
result is no rewrites and the node itself; and (a/b)/(c/d) gives the rewrites
t1 ← a/b, t2 ← c/d and the root t1/t2, t1 and t2 being the first and second
generated variable. -/
theorem SSA_Transform_div_rewrites {σ : Type} (X : SSAExternals σ) :
    (∀ (x y : IRExpression) (ctx : σ),
      SSA_Transform X (.Div x y) ctx =
        (((operandRewrites X x ctx).1.1 ++
            (operandRewrites X y (operandRewrites X x ctx).2).1.1,
          .Div (operandRewrites X x ctx).1.2
            (operandRewrites X y (operandRewrites X x ctx).2).1.2),
         (operandRewrites X y (operandRewrites X x ctx).2).2)) ∧
    (∀ (x y : IRExpression) (ctx : σ),
      IsLiteralOrVariable x = true → IsLiteralOrVariable y = true →
      SSA_Transform X (.Div x y) ctx = (([], .Div x y), ctx)) ∧
    (∀ (a b c d : String) (ctx : σ),
      SSA_Transform X
          (.Div (.Div (.Variable a) (.Variable b)) (.Div (.Variable c) (.Variable d))) ctx =
        (([NewSSA_Rewrite (X.GenerateVariable ctx).1 (.Div (.Variable a) (.Variable b)),
           NewSSA_Rewrite (X.GenerateVariable (X.GenerateVariable ctx).2).1
             (.Div (.Variable c) (.Variable d))],
          .Div (.Variable (X.GenerateVariable ctx).1)
            (.Variable (X.GenerateVariable (X.GenerateVariable ctx).2).1)),
         (X.GenerateVariable (X.GenerateVariable ctx).2).2)) := by
  refine ⟨fun x y ctx => SSA_Transform_div_eq X x y ctx, ?_, ?_⟩
  · intro x y ctx hx hy
    rw [SSA_Transform_div_eq]
    simp [operandRewrites, hx, hy]
  · intro a b c d ctx
    rw [SSA_Transform_div_eq]
    simp [operandRewrites, IsLiteralOrVariable, SSA_Transform]

/-- A counter as SSA context: the n-th generated variable is named by its
number. -/
theorem SSA_Transform_div_rewrites_witness :
    IsLiteralOrVariable (.Variable "a") = true ∧ IsLiteralOrVariable (.Literal TUint32 5) = true ∧
    SSA_Transform (σ := Nat) ⟨fun n => (toString n, n + 1), fun e n => (([], e), n)⟩
      (.Div (.Variable "a") (.Literal TUint32 5)) 0 =
      (([], .Div (.Variable "a") (.Literal TUint32 5)), 0) :=
  ⟨rfl, rfl,
    (SSA_Transform_div_rewrites (σ := Nat)
      ⟨fun n => (toString n, n + 1), fun e n => (([], e), n)⟩).2.1 _ _ 0 rfl rfl⟩

/-- Claim C7: an IR_Div whose operands have different return types is lowered to
an error and no instruction sequence; so is one whose operands have the same
type when that type is neither float nor integer; operands of one integer type
are lowered by the integer recipe (encodeInteger), and whenever the operand types
are not one and the same integer type the call ends in that error or in what the
float operator returns, so the integer recipe has not run. -/
theorem Encode_div_type_dispatch (E : Externals) (Op1 Op2 : IRExpression)
    (ctx : IR_Context) (target : Operand) :
    (ReturnType E Op1 (withComment E Op1 Op2 ctx) ≠ ReturnType E Op2 (withComment E Op1 Op2 ctx) →
      Encode E (.Div Op1 Op2) ctx target =
        (withComment E Op1 Op2 ctx, unsupportedTypes E Op1 Op2 ctx)) ∧
    (ReturnType E Op1 (withComment E Op1 Op2 ctx) = ReturnType E Op2 (withComment E Op1 Op2 ctx) →
      IsFloat (ReturnType E Op1 (withComment E Op1 Op2 ctx)) = false →
      IsInteger (ReturnType E Op1 (withComment E Op1 Op2 ctx)) = false →
      Encode E (.Div Op1 Op2) ctx target =
        (withComment E Op1 Op2 ctx, unsupportedTypes E Op1 Op2 ctx)) ∧
    (ReturnType E Op1 (withComment E Op1 Op2 ctx) = ReturnType E Op2 (withComment E Op1 Op2 ctx) →
      IsInteger (ReturnType E Op1 (withComment E Op1 Op2 ctx)) = true →
      Encode E (.Div Op1 Op2) ctx target =
        encodeInteger (Encode E Op1) (Encode E Op2) Op2
          (ReturnType E Op1 (withComment E Op1 Op2 ctx))
          (ReturnType E Op2 (withComment E Op1 Op2 ctx)) (withComment E Op1 Op2 ctx) target) ∧
    (¬ (ReturnType E Op1 (withComment E Op1 Op2 ctx) =
          ReturnType E Op2 (withComment E Op1 Op2 ctx) ∧
        IsInteger (ReturnType E Op1 (withComment E Op1 Op2 ctx)) = true) →
      Encode E (.Div Op1 Op2) ctx target =
          (withComment E Op1 Op2 ctx, unsupportedTypes E Op1 Op2 ctx) ∨
      Encode E (.Div Op1 Op2) ctx target =
          E.encodeOperator Op1 Op2 (withComment E Op1 Op2 ctx) target) := by
  rw [Encode_div_eq]
  refine ⟨?_, ?_, ?_, ?_⟩
  · intro h
    rw [if_pos h]
  · intro h hf hi
    rw [if_neg (by simpa using h)]
    simp [hf, hi]
  · intro h hi
    have hf : IsFloat (ReturnType E Op1 (withComment E Op1 Op2 ctx)) = false := by
      revert hi
      cases ReturnType E Op1 (withComment E Op1 Op2 ctx) <;> simp [IsFloat, IsInteger]
    rw [if_neg (by simpa using h)]
    simp [hf, hi]
  · intro h
    split_ifs with h1 h2 h3
    · exact Or.inl rfl
    · exact Or.inr rfl
    · exact absurd ⟨by simpa using h1, h3⟩ h
    · exact Or.inl rfl

/-- With a of type uint32 and b of type uint64 the call is an error; with both
of a type that is neither integer nor float it is an error too. -/
theorem Encode_div_type_dispatch_witness :
    (ReturnType leavesMixed (.Variable "a") (withComment leavesMixed (.Variable "a") (.Variable "b") ctxScenario4) ≠
      ReturnType leavesMixed (.Variable "b") (withComment leavesMixed (.Variable "a") (.Variable "b") ctxScenario4)) ∧
    Encode leavesMixed aDivB ctxScenario4 (.Register Eax) =
      (withComment leavesMixed (.Variable "a") (.Variable "b") ctxScenario4,
        unsupportedTypes leavesMixed (.Variable "a") (.Variable "b") ctxScenario4) ∧
    Encode leavesOther aDivB ctxScenario4 (.Register Eax) =
      (withComment leavesOther (.Variable "a") (.Variable "b") ctxScenario4,
        unsupportedTypes leavesOther (.Variable "a") (.Variable "b") ctxScenario4) :=
  ⟨by decide,
    (Encode_div_type_dispatch leavesMixed (.Variable "a") (.Variable "b") ctxScenario4
      (.Register Eax)).1 (by decide),
    (Encode_div_type_dispatch leavesOther (.Variable "a") (.Variable "b") ctxScenario4
      (.Register Eax)).2.1 (by decide) (by decide) (by decide)⟩

/-- Claim C8 fails on the code when rAX is not preserved and rDX is free: for
a / 5 over uint32, with a in ECX, rAX reserved as target and rDX free, the
register allocated for the divisor is EDX, which the high-half setup then
zeroes before the divide reads it. -/
theorem Encode_div_divisor_allocated_in_rdx :
    (Encode leaves32 aDiv5 ctxRdxFree (.Register Eax)).2 =
      .ok [MOV (.Register Ecx) (.Register Eax), MOV (.Uint32 5) (.Register Edx),
        XOR (.Register Edx) (.Register Edx), DIV (.Register Edx)] := by
  decide

/-- Claim C9: in the context that the preservation steps of lines 42-85 hand to
the emission of the dividend and the divisor (the context ctxCopy of the state
returned by preserve), every variable that was bound to a register of index 2 is
bound to the rDX scratch when rDX is preserved (width other than BYTE and rDX
occupied), every variable that was bound to a register of index 0 is bound to
the rAX scratch when rAX is preserved (target index other than 0 and rAX
occupied), and every other binding is as it was; and the caller's variable map
after Encode is what it was on entry, provided the Encode calls of the operands
and of the float operator leave the map of the context they are given as it
was. -/
theorem Encode_div_preservation_rebinds (E : Externals) (Op1 Op2 : IRExpression)
    (ctx : IR_Context) (target : Operand)
    (h1 : KeepsVariableMap (Encode E Op1)) (h2 : KeepsVariableMap (Encode E Op2))
    (hf : KeepsVariableMap (E.encodeOperator Op1 Op2)) :
    (Encode E (.Div Op1 Op2) ctx target).1.VariableMap = ctx.VariableMap ∧
    ∀ (t : IRType) (treg : Register) (s : DivState),
      preserve t treg (withComment E Op1 Op2 ctx) = some s →
      (s.tmpRdx.isSome = ((t.Width != .BYTE) && ctx.reg 2)) ∧
      (s.tmpRax.isSome = ((treg.Register != 0) && ctx.reg 0)) ∧
      (∀ name r d, s.tmpRdx = some d → ctx.lookup name = .Register r → r.Register = 2 →
        s.cur.lookup name = .Register d) ∧
      (∀ name r a, s.tmpRax = some a → ctx.lookup name = .Register r → r.Register = 0 →
        s.cur.lookup name = .Register a) ∧
      (∀ name, (∀ r, ctx.lookup name = .Register r →
          ¬ (r.Register = 2 ∧ s.tmpRdx.isSome = true) ∧
          ¬ (r.Register = 0 ∧ s.tmpRax.isSome = true)) →
        s.cur.lookup name = ctx.lookup name) := by
  constructor
  · rw [Encode_div_eq]
    split_ifs
    · rfl
    · exact hf _ _
    · exact encodeInteger_variableMap _ _ _ _ _ _ _ h1 h2
    · rfl
  · intro t treg s hp
    have hl := fun name => preserve_lookup t treg _ s hp name
    have hlk : ∀ name, (withComment E Op1 Op2 ctx).lookup name = ctx.lookup name :=
      fun name => lookup_of_variableMap _ _ rfl name
    obtain ⟨s1, hp1, hp2⟩ := preserve_some t treg _ s hp
    have hflags : (s.tmpRdx.isSome = ((t.Width != .BYTE) && ctx.reg 2)) ∧
        (s.tmpRax.isSome = ((treg.Register != 0) && ctx.reg 0)) := by
      have e2 : (withComment E Op1 Op2 ctx).reg 2 = ctx.reg 2 := rfl
      have e0 : (withComment E Op1 Op2 ctx).reg 0 = ctx.reg 0 := rfl
      rw [e2] at hp1
      rw [e0] at hp2
      rcases preserveRdx_some _ _ _ hp1 with ⟨hb1, rfl⟩ | ⟨hb1, i, hi, rfl⟩ <;>
        rcases preserveRax_some _ _ _ _ hp2 with ⟨hb2, rfl⟩ | ⟨hb2, j, hj, rfl⟩ <;>
        simp [hb1, hb2]
    refine ⟨hflags.1, hflags.2, ?_, ?_, ?_⟩
    · intro name r d hd hr h2
      obtain ⟨hlook, hne, -⟩ := hl name
      rw [hlook, hlk, hr, hd]
      cases hax : s.tmpRax with
      | none => simp [rebindTo, h2]
      | some a =>
        have := hne (by simp [hax]) d hd
        simp [rebindTo, h2, this]
    · intro name r a ha hr h0
      obtain ⟨hlook, -, -⟩ := hl name
      rw [hlook, hlk, hr, ha]
      cases hdx : s.tmpRdx with
      | none => simp [rebindTo, h0]
      | some d => simp [rebindTo, h0]
    · intro name hother
      obtain ⟨hlook, -, -⟩ := hl name
      rw [hlook, hlk]
      cases hop : ctx.lookup name with
      | Register r =>
        obtain ⟨n2, n0⟩ := hother r hop
        cases hdx : s.tmpRdx <;> cases hax : s.tmpRax <;>
          simp [rebindTo, hdx, hax] at n2 n0 ⊢ <;> simp [n2, n0]
      | _ => cases hdx : s.tmpRdx <;> cases hax : s.tmpRax <;> simp [rebindTo]


/-- With rAX and rDX occupied and target EBX, c bound to rDX and d bound to
EAX: the preservation steps set the rDX scratch rCX and the rAX scratch of index
4, in the context of the operands c is bound to rCX and d to the register of
index 4 while a stays in ESI, and the caller's map is unchanged by the call. -/
theorem Encode_div_preservation_rebinds_witness :
    KeepsVariableMap (Encode leaves32 (.Variable "a")) ∧
    KeepsVariableMap (Encode leaves32 (.Variable "b")) ∧
    KeepsVariableMap (leaves32.encodeOperator (.Variable "a") (.Variable "b")) ∧
    (Encode leaves32 (.Div (.Variable "a") (.Variable "b")) ctxRebind
        (.Register Ebx)).1.VariableMap = ctxRebind.VariableMap ∧
    ctxRebind.lookup "c" = .Register Rdx ∧ ctxRebind.lookup "d" = .Register Eax ∧
    ctxRebind.lookup "a" = .Register Esi ∧
    ∃ s, preserve TUint32 Ebx
        (withComment leaves32 (.Variable "a") (.Variable "b") ctxRebind) = some s ∧
      s.tmpRdx = some Rcx ∧ s.tmpRax = some Rsp ∧
      s.cur.lookup "c" = .Register Rcx ∧ s.cur.lookup "d" = .Register Rsp ∧
      s.cur.lookup "a" = .Register Esi := by
  have h1 : KeepsVariableMap (Encode leaves32 (.Variable "a")) :=
    leaf_keepsVariableMap _ _ (by simp)
  have h2 : KeepsVariableMap (Encode leaves32 (.Variable "b")) :=
    leaf_keepsVariableMap _ _ (by simp)
  have hf : KeepsVariableMap (leaves32.encodeOperator (.Variable "a") (.Variable "b")) :=
    fun _ _ => rfl
  have hthm := Encode_div_preservation_rebinds leaves32 (.Variable "a") (.Variable "b")
    ctxRebind (.Register Ebx) h1 h2 hf
  have hsome : (preserve TUint32 Ebx
      (withComment leaves32 (.Variable "a") (.Variable "b") ctxRebind)).isSome = true := by
    decide
  obtain ⟨s, hs⟩ := Option.isSome_iff_exists.1 hsome
  have hdx : (preserve TUint32 Ebx
      (withComment leaves32 (.Variable "a") (.Variable "b") ctxRebind)).map
      (fun s => s.tmpRdx) = some (some Rcx) := by decide
  have hax : (preserve TUint32 Ebx
      (withComment leaves32 (.Variable "a") (.Variable "b") ctxRebind)).map
      (fun s => s.tmpRax) = some (some Rsp) := by decide
  rw [hs] at hdx hax
  simp only [Option.map_some', Option.some.injEq] at hdx hax
  obtain ⟨-, -, hc, hd, ho⟩ := hthm.2 TUint32 Ebx s hs
  refine ⟨h1, h2, hf, hthm.1, by decide, by decide, by decide, s, hs, hdx, hax, ?_, ?_, ?_⟩
  · exact hc "c" Rdx Rcx hdx (by decide) rfl
  · exact hd "d" Eax Rsp hax (by decide) rfl
  · rw [ho "a" ?_]
    · decide
    · intro r hr
      have : r = Esi := by
        have hl : ctxRebind.lookup "a" = .Register Esi := by decide
        rw [hl] at hr
        simp only [Operand.Register.injEq] at hr
        exact hr.symm
      subst this
      exact ⟨fun h => absurd h.1 (by decide), fun h => absurd h.1 (by decide)⟩

/-- Claim C10: for operands of an integer type t, every sequence that Encode of
an IR_Div returns is the preserve moves, the instructions of the dividend, the
instructions of the divisor, then the high-half setup immediately followed by
the divide of the divisor operand (the binding of a variable divisor, or the
register the divisor was emitted into), then the quotient move and the restores;
the setup is CQO, CDQ, CWD, CBW for int64, int32, int16, int8 with the divide
built from the table IDIV1, and the self-XOR of RDX, EDX, DX, AH for uint64,
uint32, uint16, uint8 with the divide built from the table DIV; and the number
of divides in the sequence is one more than in the operands' instructions. -/
theorem Encode_div_high_half_then_divide (E : Externals) (Op1 Op2 : IRExpression)
    (ctx : IR_Context) (target : Operand) (r : List Instruction)
    (hi : IsInteger (ReturnType E Op1 (withComment E Op1 Op2 ctx)) = true)
    (h : (Encode E (.Div Op1 Op2) ctx target).2 = .ok r) :
    (highHalf TInt64 = CQO ∧ highHalf TInt32 = CDQ ∧ highHalf TInt16 = CWD ∧
      highHalf TInt8 = CBW ∧
      highHalf TUint64 = XOR (.Register Rdx) (.Register Rdx) ∧
      highHalf TUint32 = XOR (.Register Edx) (.Register Edx) ∧
      highHalf TUint16 = XOR (.Register Dx) (.Register Dx) ∧
      highHalf TUint8 = XOR (.Register Ah) (.Register Ah)) ∧
    (∀ reg, divide TInt64 reg = IDIV1 reg ∧ divide TInt32 reg = IDIV1 reg ∧
      divide TInt16 reg = IDIV1 reg ∧ divide TInt8 reg = IDIV1 reg ∧
      divide TUint64 reg = DIV reg ∧ divide TUint32 reg = DIV reg ∧
      divide TUint16 reg = DIV reg ∧ divide TUint8 reg = DIV reg) ∧
    ∃ treg s c1 op1 op2seq reg,
      target = .Register treg ∧
      preserve (ReturnType E Op1 (withComment E Op1 Op2 ctx)) treg
        (withComment E Op1 Op2 ctx) = some s ∧
      Encode E Op1 s.cur
        (.Register (Rax.ForOperandWidth (ReturnType E Op1 (withComment E Op1 Op2 ctx)).Width)) =
        (c1, .ok op1) ∧
      ((∃ name, Op2 = .Variable name ∧ op2seq = [] ∧ reg = c1.lookup name) ∨
       ((∀ name, Op2 ≠ .Variable name) ∧ ∃ i c2, firstFree c1.Registers = some i ∧
          reg = .Register (gpr i (ReturnType E Op1 (withComment E Op1 Op2 ctx)).Width) ∧
          Encode E Op2 { c1 with Registers := c1.Registers.set i true } reg =
            (c2, .ok op2seq))) ∧
      r = s.result ++ op1 ++ op2seq ++
        highHalf (ReturnType E Op1 (withComment E Op1 Op2 ctx)) ::
        divide (ReturnType E Op1 (withComment E Op1 Op2 ctx)) reg ::
        (quotientMove (ReturnType E Op1 (withComment E Op1 Op2 ctx)) target ++
          restoreMoves s.tmpRax s.tmpRdx) ∧
      (r.filter isDivide).length =
        (op1.filter isDivide).length + (op2seq.filter isDivide).length + 1 := by
  refine ⟨by decide, fun reg => by simp [divide, IsSignedInteger], ?_⟩
  rw [Encode_div_eq] at h
  have hfl : IsFloat (ReturnType E Op1 (withComment E Op1 Op2 ctx)) = false := by
    revert hi
    cases ReturnType E Op1 (withComment E Op1 Op2 ctx) <;> simp [IsFloat, IsInteger]
  by_cases ht : ReturnType E Op1 (withComment E Op1 Op2 ctx) =
      ReturnType E Op2 (withComment E Op1 Op2 ctx)
  · rw [if_neg (by simpa using ht)] at h
    simp only [hfl, hi, if_true, Bool.false_eq_true, if_false] at h
    rw [← ht] at h
    obtain ⟨treg, s, c1, op1, op2seq, reg, htarget, hp, he, hdiv, hr⟩ :=
      encodeInteger_ok_shape _ _ _ _ _ _ r h
    refine ⟨treg, s, c1, op1, op2seq, reg, htarget, hp, he, hdiv, hr, ?_⟩
    have htail := tail_noDivide (ReturnType E Op1 (withComment E Op1 Op2 ctx)) target
      s.tmpRax s.tmpRdx
    simp only [List.filter_append, List.append_eq_nil] at htail
    rw [hr]
    simp only [divTail, List.filter_append, List.filter_cons, highHalf_not_divide,
      divide_isDivide, htail.1, htail.2, preserve_result_noDivide _ _ _ _ hp]
    simp
    omega
  · rw [if_pos ht] at h
    simp [unsupportedTypes] at h

/-- Scenario 4 of the spec: uint32 operands, and the returned sequence has the
self-XOR of EDX immediately before the one divide. -/
theorem Encode_div_high_half_then_divide_witness :
    IsInteger (ReturnType leaves32 (.Variable "a")
      (withComment leaves32 (.Variable "a") (.Variable "b") ctxScenario4)) = true ∧
    (Encode leaves32 (.Div (.Variable "a") (.Variable "b")) ctxScenario4 (.Register Eax)).2 =
      .ok [XOR (.Register Edx) (.Register Edx), DIV (.Register Ecx)] ∧
    ∃ pre reg post, [XOR (.Register Edx) (.Register Edx), DIV (.Register Ecx)] =
      pre ++ highHalf TUint32 :: divide TUint32 reg :: post :=
  ⟨by decide, by decide,
    let ⟨_, s, _, op1, op2seq, reg, _, _, _, _, hr, _⟩ :=
      (Encode_div_high_half_then_divide leaves32 (.Variable "a") (.Variable "b") ctxScenario4
        (.Register Eax) [XOR (.Register Edx) (.Register Edx), DIV (.Register Ecx)]
        (by decide) (by decide)).2.2
    ⟨s.result ++ op1 ++ op2seq, reg, _, hr⟩⟩

/-- Claim C11 fails on the code for a byte-wide memory destination: the move of
5 to a byte in memory is built with a 32-bit immediate, not an 8-bit one. -/
theorem MOV_immediate_byte_memory_not_narrowed :
    isByteWide (.Memory Rax 0 .BYTE) = true ∧
    MOV_immediate 5 (.Memory Rax 0 .BYTE) = MOV (.Uint32 5) (.Memory Rax 0 .BYTE) ∧
    ¬ ∃ x, MOV_immediate 5 (.Memory Rax 0 .BYTE) = MOV (.Uint8 x) (.Memory Rax 0 .BYTE) := by
  refine ⟨rfl, rfl, ?_⟩
  rintro ⟨x, hx⟩
  simp [MOV_immediate, MOV, Uint32] at hx

/-- Claim C11, amended: for every value v and every byte-wide register
destination, MOV_immediate builds a MOV whose source is the 8-bit immediate
v mod 2^8 and whose operand tuple is (dest, immediate). -/
theorem MOV_immediate_byte_register (v : Nat) (reg : Register) (h : reg.Width = .BYTE) :
    MOV_immediate v (.Register reg) = MOV (.Uint8 (v % 2 ^ 8)) (.Register reg) := by
  simp [MOV_immediate, h, Uint8]

/-- The move of 300 to AL carries the 8-bit immediate 44. -/
theorem MOV_immediate_byte_register_witness :
    Al.Width = .BYTE ∧ MOV_immediate 300 (.Register Al) = MOV (.Uint8 44) (.Register Al) :=
  ⟨rfl, MOV_immediate_byte_register 300 Al rfl⟩

/-- Claim C12 fails on the code for a word-wide register: AX is not byte-wide
and 5 is below 2^32, and the move is built with a 16-bit immediate. -/
theorem MOV_immediate_word_register_not_32 :
    isByteWide (.Register Ax) = false ∧ 5 < 2 ^ 32 ∧
    MOV_immediate 5 (.Register Ax) = MOV (.Uint16 5) (.Register Ax) ∧
    MOV_immediate 5 (.Register Ax) ≠ MOV (.Uint32 5) (.Register Ax) := by
  decide

/-- Claim C12, amended: for every destination that is neither byte-wide nor a
word-wide register and every value v below 2^32, MOV_immediate builds a MOV
whose source is the 32-bit immediate of value v; and for every destination and
value, when MOV_immediate builds a MOV with a 64-bit immediate the value is at
least 2^32. -/
theorem MOV_immediate_32_or_64 :
    (∀ (v : Nat) (dest : Operand), v < 2 ^ 32 → isByteWide dest = false →
      isWordRegister dest = false →
      MOV_immediate v dest = MOV (.Uint32 v) dest) ∧
    (∀ (v : Nat) (dest : Operand) (x : Nat),
      MOV_immediate v dest = MOV (.Uint64 x) dest → 2 ^ 32 ≤ v) := by
  constructor
  · intro v dest hv hb hw
    have hv2 : v < 4294967296 := hv
    cases dest with
    | Register reg =>
      simp only [isByteWide, isWordRegister, decide_eq_false_iff_not] at hb hw
      simp [MOV_immediate, hb, hw, hv2, Uint32, Nat.mod_eq_of_lt hv2]
    | _ => simp [MOV_immediate, hv2, Uint32, Nat.mod_eq_of_lt hv2]
  · intro v dest x h
    by_contra hlt
    have hv : v < 2 ^ 32 := by omega
    cases dest with
    | Register reg =>
      simp only [MOV_immediate] at h
      split_ifs at h <;> simp [MOV, Uint8, Uint16, Uint32] at h
    | _ =>
      simp only [MOV_immediate] at h
      split_ifs at h
      simp [MOV, Uint32] at h

/-- The move of 5 to EAX carries the 32-bit immediate 5, and the move of 2^32
to RAX, which carries a 64-bit immediate, has a value of at least 2^32. -/
theorem MOV_immediate_32_or_64_witness :
    5 < 2 ^ 32 ∧ isByteWide (.Register Eax) = false ∧ isWordRegister (.Register Eax) = false ∧
    MOV_immediate 5 (.Register Eax) = MOV (.Uint32 5) (.Register Eax) ∧
    MOV_immediate (2 ^ 32) (.Register Rax) = MOV (.Uint64 (2 ^ 32)) (.Register Rax) ∧
    2 ^ 32 ≤ 2 ^ 32 :=
  ⟨by decide, rfl, rfl, MOV_immediate_32_or_64.1 5 (.Register Eax) (by decide) rfl rfl,
    by decide,
    MOV_immediate_32_or_64.2 (2 ^ 32) (.Register Rax) (2 ^ 32) (by decide)⟩

/-- Claim C13: for every value v and every destination, CMP_immediate builds the
instruction cmp from the table CMP with the operand tuple (dest, immediate),
the immediate being the 8-bit v mod 2^8 exactly when dest is a byte-wide
register and the 32-bit v mod 2^32 for every other destination. -/
theorem CMP_immediate_operands (v : Nat) (dest : Operand) :
    CMP_immediate v dest =
      Instruction.OpcodesToInstruction "cmp" .CMP 2
        [dest, if isByteRegister dest then .Uint8 (v % 2 ^ 8) else .Uint32 (v % 2 ^ 32)] := by
  cases dest with
  | Register reg =>
    by_cases h : reg.Width = .BYTE <;> simp [CMP_immediate, CMP, isByteRegister, h, Uint8, Uint32]
  | _ => simp [CMP_immediate, isByteRegister, Uint32]

/-- Claim C14 fails on the code: in scenario 5 of the spec, with rAX occupied and
the target rAX itself, the returned sequence has no preserve move and no
restore of rAX; it is MOV EDI→EAX, CDQ, IDIV ESI for the target EAX, followed by
the move EAX→RAX for the target RAX. -/
theorem Encode_div_target_rax_not_bracketed :
    ctxScenario5.reg 0 = true ∧
    (Encode leavesInt32 aDivB ctxScenario5 (.Register Eax)).2 =
      .ok [MOV (.Register Edi) (.Register Eax), CDQ, IDIV1 (.Register Esi)] ∧
    (Encode leavesInt32 aDivB ctxScenario5 (.Register Rax)).2 =
      .ok [MOV (.Register Edi) (.Register Eax), CDQ, IDIV1 (.Register Esi),
        MOV (.Register Eax) (.Register Rax)] := by
  decide

/-- Claim C14, amended: lowering a / b with a and b int32 variables bound to EDI
and ESI, target rAX and rAX occupied on entry returns MOV EDI→EAX, CDQ,
IDIV ESI, followed by a move of EAX to the target when the target is RAX and
not EAX, with no preserve or restore of rAX; and in general, whenever rAX is
occupied on entry and the index of the target register is not 0, the returned
sequence has a preserve move of rAX into a scratch before the high-half setup
and the divide, and the restore of rAX from that scratch after them. -/
theorem Encode_div_rax_bracket :
    (Encode leavesInt32 aDivB ctxScenario5 (.Register Eax)).2 =
      .ok [MOV (.Register Edi) (.Register Eax), CDQ, IDIV1 (.Register Esi)] ∧
    (Encode leavesInt32 aDivB ctxScenario5 (.Register Rax)).2 =
      .ok [MOV (.Register Edi) (.Register Eax), CDQ, IDIV1 (.Register Esi),
        MOV (.Register Eax) (.Register Rax)] ∧
    ∀ (E : Externals) (Op1 Op2 : IRExpression) (ctx : IR_Context) (treg : Register)
      (r : List Instruction),
      IsInteger (ReturnType E Op1 (withComment E Op1 Op2 ctx)) = true →
      (Encode E (.Div Op1 Op2) ctx (.Register treg)).2 = .ok r →
      treg.Register ≠ 0 → ctx.reg 0 = true →
      ∃ a reg pre before after post,
        r = pre ++ MOV (.Register Rax) (.Register a) :: before ++
          highHalf (ReturnType E Op1 (withComment E Op1 Op2 ctx)) ::
          divide (ReturnType E Op1 (withComment E Op1 Op2 ctx)) reg :: after ++
          MOV (.Register a) (.Register Rax) :: post := by
  refine ⟨by decide, by decide, ?_⟩
  intro E Op1 Op2 ctx treg r hi h ht hax
  obtain ⟨treg2, d, a, op1, op2seq, reg, h1, -, h3, -, -, -, h7⟩ :=
    Encode_div_integer_shape E Op1 Op2 ctx (.Register treg) r hi h
  simp only [Operand.Register.injEq] at h1
  subst h1
  have ha : a.isSome = true := by
    rw [h3]
    simp [hax, ht]
  cases a with
  | none => simp at ha
  | some a =>
    refine ⟨a, reg, preserveMoves d none, op1 ++ op2seq,
      quotientMove (ReturnType E Op1 (withComment E Op1 Op2 ctx)) (.Register treg),
      restoreMoves none d, ?_⟩
    rw [h7]
    cases d <;> simp [preserveMoves, restoreMoves]

/-- Scenario 5 with the target EBX in place of rAX: the sequence is the one the
spec lists, with the preserve move of rAX first and its restore last. -/
theorem Encode_div_rax_bracket_witness :
    IsInteger (ReturnType leavesInt32 (.Variable "a")
      (withComment leavesInt32 (.Variable "a") (.Variable "b") ctxScenario5)) = true ∧
    (Encode leavesInt32 (.Div (.Variable "a") (.Variable "b")) ctxScenario5
      (.Register Ebx)).2 =
      .ok [MOV (.Register Rax) (.Register Rcx), MOV (.Register Edi) (.Register Eax), CDQ,
        IDIV1 (.Register Esi), MOV (.Register Eax) (.Register Ebx),
        MOV (.Register Rcx) (.Register Rax)] ∧
    Ebx.Register ≠ 0 ∧ ctxScenario5.reg 0 = true ∧
    ∃ a reg pre before after post,
      [MOV (.Register Rax) (.Register Rcx), MOV (.Register Edi) (.Register Eax), CDQ,
        IDIV1 (.Register Esi), MOV (.Register Eax) (.Register Ebx),
        MOV (.Register Rcx) (.Register Rax)] =
      pre ++ MOV (.Register Rax) (.Register a) :: before ++
        highHalf TInt32 :: divide TInt32 reg :: after ++
        MOV (.Register a) (.Register Rax) :: post :=
  ⟨by decide, by decide, by decide, by decide,
    Encode_div_rax_bracket.2.2 leavesInt32 (.Variable "a") (.Variable "b") ctxScenario5 Ebx
      _ (by decide) (by decide) (by decide) (by decide)⟩
/-- Claim C15 fails on the code for a target that is not a register: lowering
a / b over uint32 variables into a memory reference does not return, the type
assertion of line 45 fails. -/
theorem Encode_div_memory_target_aborts :
    (Encode leaves32 aDivB ctxScenario4 (.Memory Rsi 0 .DOUBLE)).2 = .abort ∧
    (Encode leaves32 aDivB ctxScenario4 (.RIPRelative 16)).2 = .abort := by
  decide

/-- Claim C16 fails on the code: with a in EAX and no binding for the uint32
variable b, lowering a / b returns a sequence whose divide has the nil operand
that the map lookup of line 99 yields. -/
theorem Encode_div_undefined_divisor_nil_operand :
    ctxNoDivisor.lookup "b" = .Nil ∧
    (Encode leaves32 aDivB ctxNoDivisor (.Register Eax)).2 =
      .ok [XOR (.Register Edx) (.Register Edx), DIV .Nil] := by
  decide

/-- Claim C17: in every successful integer lowering the returned sequence is the
preserve moves, the instructions of the dividend and of the divisor, the
high-half setup, the divide, the quotient move and the restores, where the
preserve move of rDX and its restore are present exactly when the width is not
BYTE and rDX is occupied on entry, and the preserve move of rAX and its restore
exactly when the index of the target register is not 0 and rAX is occupied on
entry; with a in EAX, b in ECX (uint32), target EAX and rDX free the sequence is
XOR EDX,EDX; DIV ECX with no preservation move. -/
theorem Encode_div_preservation_conditions (E : Externals) (Op1 Op2 : IRExpression)
    (ctx : IR_Context) (target : Operand) (r : List Instruction)
    (hi : IsInteger (ReturnType E Op1 (withComment E Op1 Op2 ctx)) = true)
    (h : (Encode E (.Div Op1 Op2) ctx target).2 = .ok r) :
    (∃ treg d a op1 op2seq reg,
      target = .Register treg ∧
      d.isSome = (((ReturnType E Op1 (withComment E Op1 Op2 ctx)).Width != .BYTE) &&
        ctx.reg 2) ∧
      a.isSome = ((treg.Register != 0) && ctx.reg 0) ∧
      (∃ c0 c1, Encode E Op1 c0
        (.Register (Rax.ForOperandWidth (ReturnType E Op1 (withComment E Op1 Op2 ctx)).Width)) =
        (c1, .ok op1)) ∧
      ((∃ name, Op2 = .Variable name ∧ op2seq = []) ∨
       (∃ c fr c2, Encode E Op2 c (.Register fr) = (c2, .ok op2seq))) ∧
      r = preserveMoves d a ++ op1 ++ op2seq ++
        highHalf (ReturnType E Op1 (withComment E Op1 Op2 ctx)) ::
        divide (ReturnType E Op1 (withComment E Op1 Op2 ctx)) reg ::
        (quotientMove (ReturnType E Op1 (withComment E Op1 Op2 ctx)) target ++
          restoreMoves a d)) ∧
    (Encode leaves32 aDivB ctxScenario4 (.Register Eax)).2 =
      .ok [XOR (.Register Edx) (.Register Edx), DIV (.Register Ecx)] := by
  refine ⟨?_, by decide⟩
  obtain ⟨treg, d, a, op1, op2seq, reg, h1, h2, h3, -, h5, h6, h7⟩ :=
    Encode_div_integer_shape E Op1 Op2 ctx target r hi h
  exact ⟨treg, d, a, op1, op2seq, reg, h1, h2, h3, h5, h6, h7⟩

/-- Scenario 4 of the spec: neither scratch is set and the sequence is the
self-XOR of EDX and the divide; and with rAX and rDX occupied and target EBX
both scratches are set and the sequence has the preserve moves of rDX and rAX
first and their restores last. -/
theorem Encode_div_preservation_conditions_witness :
    (IsInteger (ReturnType leaves32 (.Variable "a")
      (withComment leaves32 (.Variable "a") (.Variable "b") ctxScenario4)) = true ∧
    (Encode leaves32 (.Div (.Variable "a") (.Variable "b")) ctxScenario4 (.Register Eax)).2 =
      .ok [XOR (.Register Edx) (.Register Edx), DIV (.Register Ecx)] ∧
    ∃ (d a : Option Register) (mid : List Instruction),
      d.isSome = false ∧ a.isSome = false ∧
      [XOR (.Register Edx) (.Register Edx), DIV (.Register Ecx)] =
        preserveMoves d a ++ mid ++ restoreMoves a d) ∧
    (IsInteger (ReturnType leaves32 (.Variable "a")
      (withComment leaves32 (.Variable "a") (.Variable "b") ctxBothLive)) = true ∧
    (Encode leaves32 (.Div (.Variable "a") (.Variable "b")) ctxBothLive (.Register Ebx)).2 =
      .ok [MOV (.Register Rdx) (.Register Rcx), MOV (.Register Rax) (.Register Rsp),
        MOV (.Register Esi) (.Register Eax), XOR (.Register Edx) (.Register Edx),
        DIV (.Register Edi), MOV (.Register Eax) (.Register Ebx),
        MOV (.Register Rsp) (.Register Rax), MOV (.Register Rcx) (.Register Rdx)] ∧
    ∃ (d a : Register) (mid : List Instruction),
      [MOV (.Register Rdx) (.Register Rcx), MOV (.Register Rax) (.Register Rsp),
        MOV (.Register Esi) (.Register Eax), XOR (.Register Edx) (.Register Edx),
        DIV (.Register Edi), MOV (.Register Eax) (.Register Ebx),
        MOV (.Register Rsp) (.Register Rax), MOV (.Register Rcx) (.Register Rdx)] =
        preserveMoves (some d) (some a) ++ mid ++ restoreMoves (some a) (some d)) :=
  ⟨⟨by decide, by decide,
    let ⟨_, d, a, op1, op2seq, reg, ht, hd, ha, _, _, hr⟩ :=
      (Encode_div_preservation_conditions leaves32 (.Variable "a") (.Variable "b")
        ctxScenario4 (.Register Eax)
        [XOR (.Register Edx) (.Register Edx), DIV (.Register Ecx)]
        (by decide) (by decide)).1
    ⟨d, a, op1 ++ op2seq ++ [highHalf TUint32, divide TUint32 reg] ++
        quotientMove TUint32 (.Register Eax), by
      rw [hd]; decide, by
      cases ht
      rw [ha]; decide, by
      rw [hr]
      simp only [List.append_assoc, List.cons_append, List.nil_append]
      rfl⟩⟩,
   ⟨by decide, by decide, by
    obtain ⟨treg, d, a, op1, op2seq, reg, ht, hd, ha, -, -, hr⟩ :=
      (Encode_div_preservation_conditions leaves32 (.Variable "a") (.Variable "b")
        ctxBothLive (.Register Ebx)
        [MOV (.Register Rdx) (.Register Rcx), MOV (.Register Rax) (.Register Rsp),
          MOV (.Register Esi) (.Register Eax), XOR (.Register Edx) (.Register Edx),
          DIV (.Register Edi), MOV (.Register Eax) (.Register Ebx),
          MOV (.Register Rsp) (.Register Rax), MOV (.Register Rcx) (.Register Rdx)]
        (by decide) (by decide)).1
    cases ht
    have hd2 : d.isSome = true := by rw [hd]; decide
    have ha2 : a.isSome = true := by rw [ha]; decide
    cases d with
    | none => simp at hd2
    | some d =>
      cases a with
      | none => simp at ha2
      | some a =>
        refine ⟨d, a, op1 ++ op2seq ++ [highHalf TUint32, divide TUint32 reg] ++
          quotientMove TUint32 (.Register Ebx), ?_⟩
        rw [hr]
        simp only [List.append_assoc, List.cons_append, List.nil_append]
        rfl⟩⟩

/-- Claim C18: in every successful integer lowering where rDX is preserved
(width other than BYTE, rDX occupied) and rAX is preserved (target index other
than 0, rAX occupied), the returned sequence begins with the move of rDX into
its scratch followed by the move of rAX into its scratch and ends with the
restore of rAX followed by the restore of rDX, and the two scratches are
registers of different index. -/
theorem Encode_div_both_preserved_order (E : Externals) (Op1 Op2 : IRExpression)
    (ctx : IR_Context) (treg : Register) (r : List Instruction)
    (hi : IsInteger (ReturnType E Op1 (withComment E Op1 Op2 ctx)) = true)
    (h : (Encode E (.Div Op1 Op2) ctx (.Register treg)).2 = .ok r)
    (hw : (ReturnType E Op1 (withComment E Op1 Op2 ctx)).Width ≠ .BYTE)
    (hdx : ctx.reg 2 = true) (ht : treg.Register ≠ 0) (hax : ctx.reg 0 = true) :
    ∃ d a mid,
      r = MOV (.Register Rdx) (.Register d) :: MOV (.Register Rax) (.Register a) :: mid ++
        [MOV (.Register a) (.Register Rax), MOV (.Register d) (.Register Rdx)] ∧
      d.Register ≠ a.Register ∧ d ≠ a := by
  obtain ⟨treg2, d, a, op1, op2seq, reg, h1, h2, h3, h4, -, -, h7⟩ :=
    Encode_div_integer_shape E Op1 Op2 ctx (.Register treg) r hi h
  simp only [Operand.Register.injEq] at h1
  subst h1
  have hd : d.isSome = true := by
    rw [h2]
    simp [hdx, hw]
  have ha : a.isSome = true := by
    rw [h3]
    simp [hax, ht]
  cases d with
  | none => simp at hd
  | some d =>
    cases a with
    | none => simp at ha
    | some a =>
      have hne := h4 d a rfl rfl
      refine ⟨d, a, op1 ++ op2seq ++
        highHalf (ReturnType E Op1 (withComment E Op1 Op2 ctx)) ::
        divide (ReturnType E Op1 (withComment E Op1 Op2 ctx)) reg ::
        quotientMove (ReturnType E Op1 (withComment E Op1 Op2 ctx)) (.Register treg),
        ?_, hne, fun hda => hne (by rw [hda])⟩
      rw [h7]
      simp [preserveMoves, restoreMoves]

/-- With rAX and rDX occupied and target EBX the sequence starts with the moves
of rDX into rCX and of rAX into the register of index 4, and ends with their
restores in the opposite order. -/
theorem Encode_div_both_preserved_order_witness :
    IsInteger (ReturnType leaves32 (.Variable "a")
      (withComment leaves32 (.Variable "a") (.Variable "b") ctxBothLive)) = true ∧
    (Encode leaves32 (.Div (.Variable "a") (.Variable "b")) ctxBothLive (.Register Ebx)).2 =
      .ok [MOV (.Register Rdx) (.Register Rcx), MOV (.Register Rax) (.Register Rsp),
        MOV (.Register Esi) (.Register Eax), XOR (.Register Edx) (.Register Edx),
        DIV (.Register Edi), MOV (.Register Eax) (.Register Ebx),
        MOV (.Register Rsp) (.Register Rax), MOV (.Register Rcx) (.Register Rdx)] ∧
    (ReturnType leaves32 (.Variable "a")
      (withComment leaves32 (.Variable "a") (.Variable "b") ctxBothLive)).Width ≠ .BYTE ∧
    ctxBothLive.reg 2 = true ∧ Ebx.Register ≠ 0 ∧ ctxBothLive.reg 0 = true ∧
    ∃ d a mid,
      [MOV (.Register Rdx) (.Register Rcx), MOV (.Register Rax) (.Register Rsp),
        MOV (.Register Esi) (.Register Eax), XOR (.Register Edx) (.Register Edx),
        DIV (.Register Edi), MOV (.Register Eax) (.Register Ebx),
        MOV (.Register Rsp) (.Register Rax), MOV (.Register Rcx) (.Register Rdx)] =
      MOV (.Register Rdx) (.Register d) :: MOV (.Register Rax) (.Register a) :: mid ++
        [MOV (.Register a) (.Register Rax), MOV (.Register d) (.Register Rdx)] ∧
      d.Register ≠ a.Register ∧ d ≠ a :=
  ⟨by decide, by decide, by decide, by decide, by decide, by decide,
    Encode_div_both_preserved_order leaves32 (.Variable "a") (.Variable "b") ctxBothLive Ebx
      _ (by decide) (by decide) (by decide) (by decide) (by decide) (by decide)⟩
/-- Claim C19: for every tree built from IR_Div nodes over literals and
variables (with an IR_Div at the root) and every environment, if the variables
that the SSA context generates are distinct from each other and from every
variable of the tree, then running the rewrites returned by SSA_Transform in
list order as successive bindings and evaluating the returned root gives the
result of evaluating the tree left to right, a value or the division-by-zero
failure; the variables bound by the rewrites are pairwise distinct and none is
a variable of the tree, every rewrite uses only variables of the tree or
variables bound by a rewrite before it, and so does the root. -/
theorem SSA_Transform_preserves_evaluation {σ : Type} (X : SSAExternals σ) (ctx : σ)
    (a b : IRExpression) (env : String → Int)
    (htree : isDivTree (.Div a b) = true)
    (hdistinct : ∀ i j, genName X ctx i = genName X ctx j → i = j)
    (hfresh : ∀ i, genName X ctx i ∉ vars (.Div a b)) :
    evalFlattened env (SSA_Transform X (.Div a b) ctx).1 = eval env (.Div a b) ∧
    (boundNames (SSA_Transform X (.Div a b) ctx).1.1).Nodup ∧
    (∀ v ∈ boundNames (SSA_Transform X (.Div a b) ctx).1.1, v ∉ vars (.Div a b)) ∧
    wellScoped (vars (.Div a b)) (SSA_Transform X (.Div a b) ctx).1.1 = true ∧
    (∀ v ∈ vars (SSA_Transform X (.Div a b) ctx).1.2,
      v ∈ vars (.Div a b) ∨ v ∈ boundNames (SSA_Transform X (.Div a b) ctx).1.1) := by
  have ht := htree
  simp only [isDivTree, Bool.and_eq_true] at ht
  have hfa : ∀ i, genName X ctx i ∉ vars a := fun i hm => hfresh i (by simp [vars, hm])
  have hfb : ∀ i, genName X ctx i ∉ vars b := fun i hm => hfresh i (by simp [vars, hm])
  have hspec := (SSA_Transform_div_of_operands X ctx a b 0 hdistinct hfa hfb
      (operandRewrites_spec X ctx a ht.1 hdistinct hfa 0)
      (operandRewrites_spec X ctx b ht.2 hdistinct hfb (0 + opCount a))).2
  unfold FlattenSpec at hspec
  obtain ⟨hb, hv, hs, hsem⟩ := hspec
  have hg : genState X ctx 0 = ctx := rfl
  rw [hg] at hb hv hs hsem
  refine ⟨?_, ?_, ?_, hs, hv⟩
  · unfold evalFlattened
    cases hr : runRewrites env (SSA_Transform X (.Div a b) ctx).1.1 with
    | none => exact ((hsem env).1 hr).symm
    | some env1 => exact ((hsem env).2 env1 hr).1
  · rw [hb]
    refine List.Nodup.map_on ?_ (List.nodup_range' _ _)
    intro i _ j _ hij
    exact hdistinct i j hij
  · intro v hv2 hm
    rw [hb] at hv2
    simp only [List.mem_map] at hv2
    obtain ⟨i, -, rfl⟩ := hv2
    exact hfresh i hm

/-- The tree (a / b) / (c / d) with a = 12, b = 3, c = 4, d = 2 and the names
t, tt, ...: the flattened program has the value of the tree, 2. -/
theorem SSA_Transform_preserves_evaluation_witness :
    isDivTree abDivCd = true ∧
    (∀ i j, genName tickNames 0 i = genName tickNames 0 j → i = j) ∧
    (∀ i, genName tickNames 0 i ∉ vars abDivCd) ∧
    evalFlattened env1234 (SSA_Transform tickNames abDivCd 0).1 = eval env1234 abDivCd ∧
    eval env1234 abDivCd = some 2 :=
  have hd : ∀ i j, genName tickNames 0 i = genName tickNames 0 j → i = j := by
    intro i j h
    rw [genName_tickNames, genName_tickNames] at h
    have := congrArg (fun s => s.data.length) h
    simpa using this
  have hf : ∀ i, genName tickNames 0 i ∉ vars abDivCd := by
    intro i h
    rw [genName_tickNames] at h
    simp [abDivCd, vars, List.replicate_succ, String.ext_iff] at h
  ⟨rfl, hd, hf,
    (SSA_Transform_preserves_evaluation tickNames 0 (.Div (.Variable "a") (.Variable "b"))
      (.Div (.Variable "c") (.Variable "d")) env1234 rfl hd hf).1,
    by decide⟩
/-- Claim C20: the immediate constructors are total and reduce the value
modulo the chosen width: for every uint64 value v, the immediate of
MOV_immediate is v mod 2^8 for a byte register, v mod 2^16 for a word register
and v itself for every other destination; the immediate of CMP_immediate is
v mod 2^8 for a byte register and v mod 2^32 for every other destination; and
such a reduced value equals v exactly when v is below 2^8, respectively 2^32. -/
theorem immediate_constructors_reduce (v : Nat) (dest : Operand) (hv : v < 2 ^ 64) :
    (MOV_immediate v dest).immediate =
      some (if isByteRegister dest then v % 2 ^ 8
        else if isWordRegister dest then v % 2 ^ 16 else v) ∧
    (CMP_immediate v dest).immediate =
      some (if isByteRegister dest then v % 2 ^ 8 else v % 2 ^ 32) ∧
    (v % 2 ^ 8 = v ↔ v < 2 ^ 8) ∧ (v % 2 ^ 32 = v ↔ v < 2 ^ 32) := by
  have hv2 : v < 18446744073709551616 := hv
  refine ⟨?_, ?_, ?_, ?_⟩
  · cases dest with
    | Register reg =>
      by_cases hb : reg.Width = .BYTE
      · simp [MOV_immediate, isByteRegister, hb, MOV, Uint8, Instruction.immediate,
          Operand.immediate]
      · by_cases hw : reg.Width = .WORD
        · simp [MOV_immediate, isByteRegister, isWordRegister, hb, hw, MOV, Uint16,
            Instruction.immediate, Operand.immediate]
        · by_cases h32 : v < 4294967296
          · simp [MOV_immediate, isByteRegister, isWordRegister, hb, hw, h32, MOV, Uint32,
              Instruction.immediate, Operand.immediate, Nat.mod_eq_of_lt h32]
          · simp [MOV_immediate, isByteRegister, isWordRegister, hb, hw, h32, MOV, Uint64,
              Instruction.immediate, Operand.immediate, Nat.mod_eq_of_lt hv2]
    | _ =>
      by_cases h32 : v < 4294967296
      · simp [MOV_immediate, isByteRegister, isWordRegister, h32, MOV, Uint32,
          Instruction.immediate, Operand.immediate, Nat.mod_eq_of_lt h32]
      · simp [MOV_immediate, isByteRegister, isWordRegister, h32, MOV, Uint64,
          Instruction.immediate, Operand.immediate, Nat.mod_eq_of_lt hv2]
  · rw [CMP_immediate_operands]
    by_cases hb : isByteRegister dest = true <;>
      simp [hb, Instruction.immediate, Operand.immediate]
  · constructor
    · intro h
      rw [← h]
      exact Nat.mod_lt _ (by norm_num)
    · exact Nat.mod_eq_of_lt
  · constructor
    · intro h
      rw [← h]
      exact Nat.mod_lt _ (by norm_num)
    · exact Nat.mod_eq_of_lt

/-- The value 2^32 + 7 does not fit 32 bits: the compare with ECX carries the
immediate 7 and the move to RCX carries the value itself. -/
theorem immediate_constructors_reduce_witness :
    2 ^ 32 + 7 < 2 ^ 64 ∧
    (MOV_immediate (2 ^ 32 + 7) (.Register Rcx)).immediate = some (2 ^ 32 + 7) ∧
    (CMP_immediate (2 ^ 32 + 7) (.Register Ecx)).immediate = some 7 :=
  ⟨by decide,
    (immediate_constructors_reduce (2 ^ 32 + 7) (.Register Rcx) (by decide)).1,
    (immediate_constructors_reduce (2 ^ 32 + 7) (.Register Ecx) (by decide)).2.1⟩

end JIT
